import Mathlib

/-!
# AgilityOptimalXP.js — shallow embedding and verified properties

The class `OptimalAgility` of `src/AgilityOptimalXP.js` is embedded as pure Lean
functions.

Modelling conventions:

* JavaScript numbers are exact rationals (`ℚ`), and the arithmetic of
  `getOptimalCourse` is exact.  Where the rounding of IEEE doubles changes a
  result — the `+=` accumulation of `combineModValues` — the addition is a
  parameter of the method: exact addition inside `getOptimalCourse`, and
  `doubleAdd`, the correctly rounded addition of binary64, for the method run
  on doubles.  The one place where a division can have a zero divisor and its
  result is compared (`xp / interval` rates) uses `JsNum`, which adds
  `Infinity`, `-Infinity` and `NaN`.
* `undefined` is `Option.none`.  An array that may have holes is a
  `List (Option α)` (`SparseArray`), a hole being `none`.
* A thrown `TypeError` (reading a property of `undefined`) is `Except.error`.
* The ambient globals `game.agility.actions`, `modifierData` and
  `roundToTickInterval` are the fields of `Game`; `modifierData` has an entry
  for every name of `globalMods`.
* Obstacle ids are namespaced strings such as `melvorD:Rope_Climb`; the array
  `globalModObst`, which the program indexes by id, is a map from ids.
* `console.log` has no effect on any returned value and is left out.
* The fields of an instance are a `State`; `setMastery`, the one method that
  assigns a field, is a function on it.  Its argument is a `JsValue`: a finite
  number, or any other value described by what `parseInt` and `ToNumber` make
  of it.
-/

namespace OptimalAgility

/-! ## JavaScript values -/

/-- Result of a JavaScript division of two finite numbers, and the type of
`maxXPRate`: a finite number, `Infinity`, `-Infinity` or `NaN`. -/
inductive JsNum where
  | num (q : ℚ)
  | posInf
  | negInf
  | nan
deriving DecidableEq

/-- JavaScript `a / b` on finite numbers: a zero divisor gives `Infinity`,
`-Infinity` or `NaN` according to the sign of `a`. -/
def jsDiv (a b : ℚ) : JsNum :=
  if b = 0 then
    (if 0 < a then JsNum.posInf else if a < 0 then JsNum.negInf else JsNum.nan)
  else JsNum.num (a / b)

/-- JavaScript `a < b`: false as soon as one side is `NaN`. -/
def JsNum.lt : JsNum → JsNum → Bool
  | .nan, _ => false
  | _, .nan => false
  | .num a, .num b => decide (a < b)
  | .negInf, .negInf => false
  | .negInf, _ => true
  | _, .negInf => false
  | .posInf, _ => false
  | .num _, .posInf => true

/-- JavaScript `a > b`. -/
def JsNum.gt (a b : JsNum) : Bool := JsNum.lt b a

/-- JavaScript `a >= b`: false as soon as one side is `NaN`. -/
def JsNum.ge : JsNum → JsNum → Bool
  | .nan, _ => false
  | _, .nan => false
  | a, b => !(JsNum.lt a b)

/-- Round a rational to the nearest integer, a tie going to the even one. -/
def roundHalfEven (x : ℚ) : Int :=
  let f : Int := ⌊x⌋
  if x - f < 1 / 2 then f
  else if 1 / 2 < x - f then f + 1
  else if f % 2 = 0 then f else f + 1

/-- Halve `ulp` while `x` is below `2 ^ 52` times it, at most `fuel` times. -/
def ulpDown : Nat → ℚ → ℚ → ℚ
  | 0, _, ulp => ulp
  | fuel + 1, x, ulp =>
    if x < 4503599627370496 * ulp then ulpDown fuel x (ulp / 2) else ulp

/-- Double `ulp` while `x` is at least `2 ^ 53` times it, at most `fuel` times. -/
def ulpUp : Nat → ℚ → ℚ → ℚ
  | 0, _, ulp => ulp
  | fuel + 1, x, ulp =>
    if 9007199254740992 * ulp ≤ x then ulpUp fuel x (2 * ulp) else ulp

/-- Spacing of the IEEE 754 binary64 numbers around `x`: the power of two `u` with
`2 ^ 52 * u ≤ |x| < 2 ^ 53 * u` (53 significant bits), and not less than `2 ^ (-1074)`, the
spacing of the subnormal numbers. -/
def doubleUlp (x : ℚ) : ℚ :=
  if 9007199254740992 ≤ |x| then ulpUp 971 |x| 1 else ulpDown 1074 |x| 1

/-- The double nearest to `x`, a tie going to the even significand: the value a JavaScript
number literal or arithmetic operation of exact value `x` has, for `|x|` below `2 ^ 1024`
(no overflow to an infinity). -/
def roundDouble (x : ℚ) : ℚ := (roundHalfEven (x / doubleUlp x) : ℚ) * doubleUlp x

/-- JavaScript `a + b` on two finite doubles: the exact sum, rounded. -/
def doubleAdd (a b : ℚ) : ℚ := roundDouble (a + b)

/-- The only fault the program can raise: reading a property of `undefined`. -/
inductive JsError where
  | typeError
deriving DecidableEq

deriving instance DecidableEq for Except

/-- A JavaScript array that may have holes (`none`). -/
abbrev SparseArray (α : Type) := List (Option α)

/-- Read `arr[i]`: a hole and an index past the end both read as `undefined`. -/
def SparseArray.get {α : Type} (arr : SparseArray α) (i : Nat) : Option α :=
  match arr[i]? with
  | some (some v) => some v
  | _ => none

/-- Write `arr[i] = v`: an index past the end extends the array with holes. -/
def SparseArray.set {α : Type} (arr : SparseArray α) (i : Nat) (v : α) : SparseArray α :=
  if i < arr.length then List.set arr i (some v)
  else arr ++ List.replicate (i - arr.length) none ++ [some v]

/-- A plain JavaScript object used as a map: keys in insertion order. -/
abbrev JsObj (κ : Type) (β : Type) := List (κ × β)

/-- Read `obj[k]`. -/
def JsObj.get {κ β : Type} [DecidableEq κ] : JsObj κ β → κ → Option β
  | [], _ => none
  | (k', v) :: rest, k => if k' = k then some v else JsObj.get rest k

/-- Write `obj[k] = v`: an existing key keeps its position. -/
def JsObj.set {κ β : Type} [DecidableEq κ] : JsObj κ β → κ → β → JsObj κ β
  | [], k, v => [(k, v)]
  | (k', v') :: rest, k, v =>
      if k' = k then (k, v) :: rest else (k', v') :: JsObj.set rest k v

/-- The array `[...new Set(xs)]`: the elements of `xs` without repetition, each at the place
of its first occurrence. -/
def newSet {α : Type} [DecidableEq α] (xs : List α) : List α :=
  xs.foldl (fun acc x => if x ∈ acc then acc else acc ++ [x]) []

/-- A boolean returned by a sort comparator is coerced with `ToNumber`. -/
def boolToNumber (b : Bool) : Int := if b then 1 else 0

/-- Insert `x` into `sortedRev`, the already sorted prefix held last element first: `x`
moves in front of an element only while the comparator is negative. -/
def sortInsert {α : Type} (comparefn : α → α → Int) (x : α) : List α → List α
  | [] => [x]
  | y :: ys => if comparefn x y < 0 then y :: sortInsert comparefn x ys else x :: y :: ys

/-- Method `Array.prototype.sort(comparefn)` as V8 (Chrome and the desktop client of the game)
runs it: a stable sort in which an element is moved in front of another one only when
`comparefn` returns a negative number.  For a consistent comparator this is the stable
sort; for a comparator that never returns a negative number — both comparators of this
program return a boolean — the array is left as it is, which is what V8's run detection
does with it.  ECMAScript leaves the order implementation-defined for such comparators. -/
def jsSort {α : Type} (comparefn : α → α → Int) (xs : List α) : List α :=
  (xs.foldl (fun sortedRev x => sortInsert comparefn x sortedRev) []).reverse

/-! ## Data model -/

/-- The value stored under a modifier name: a single magnitude, or an array of
`{skill: {id}, value}` entries. -/
inductive ModValue where
  | scalar (value : ℚ)
  | scoped (entries : List (String × ℚ))
deriving DecidableEq

/-- A defined `modifiers` value other than `null`: a plain object (`constructor === Object`)
with its properties, or any other value that is not `null` (a number, a string, an array, an
instance of a class), whose `constructor` is read without a fault and is not `Object`. -/
inductive ModObj where
  | plain (fields : JsObj String ModValue)
  | other
deriving DecidableEq

/-- A value passed as `modObj` to `getModValue` and `getGlobalModValues`: `null`, or a value
that is not `null`, which is `undefined` (`none`) or a `ModObj`. -/
inductive ModArg where
  | null
  | notNull (modObj : Option ModObj)
deriving DecidableEq

/-- An element of `game.agility.actions`. -/
structure Obstacle where
  id : String
  category : Nat
  baseExperience : ℚ
  baseInterval : ℚ
  modifiers : Option ModObj
deriving DecidableEq

/-- The object returned by `getObstProps`. -/
structure ObstProps where
  id : String
  xp : ℚ
  interval : ℚ
deriving DecidableEq

/-- The globals the class reads: `game.agility.actions` (in registry order),
`modifierData[name].isNegative` and `roundToTickInterval`. -/
structure Game where
  actions : List Obstacle
  isNegative : String → Bool
  roundToTickInterval : ℚ → ℚ

/-- An entry of `this.globalMods`. -/
structure GlobalMod where
  name : String
  skillID : Option String
  group : String
  sign : Int
deriving DecidableEq

/-- Field `this.obstacleUnlockLevels` set by the constructor. -/
def obstacleUnlockLevels : List Int :=
  [0, 10, 20, 30, 40, 50, 60, 70, 80, 90, 100, 105, 110, 115, 118]

/-- Field `this.globalMods` set by the constructor. -/
def globalMods : List GlobalMod :=
  [ { name := "increasedSkillIntervalPercent", skillID := some "melvorD:Agility",
      group := "intervalPct", sign := 1 },
    { name := "decreasedSkillIntervalPercent", skillID := some "melvorD:Agility",
      group := "intervalPct", sign := -1 },
    { name := "increasedSkillInterval", skillID := some "melvorD:Agility",
      group := "interval", sign := 1 },
    { name := "decreasedSkillInterval", skillID := some "melvorD:Agility",
      group := "interval", sign := -1 },
    { name := "increasedSkillXP", skillID := some "melvorD:Agility",
      group := "skillXP", sign := 1 },
    { name := "decreasedSkillXP", skillID := some "melvorD:Agility",
      group := "skillXP", sign := -1 },
    { name := "increasedGlobalSkillXP", skillID := none, group := "skillXP", sign := 1 },
    { name := "decreasedGlobalSkillXP", skillID := none, group := "skillXP", sign := -1 } ]

/-! ## Methods of the class -/

/-- Expression `x || 0` on an optional number: `undefined` reads as `0` (and `0` stays `0`). -/
def orZero (x : Option ℚ) : ℚ :=
  match x with
  | some v => v
  | none => 0

/-- Method `getModValue(modObj, modName, skillID, masteryLevel)` for an argument `modObj` that
is not `null`; no such call throws.  The method on every argument is `getModValueOf`. -/
def getModValue (isNegative : String → Bool) (modObj : Option ModObj) (modName : String)
    (skillID : Option String) (masteryLevel : Int) : Option ℚ :=
  let magnitudeMult : ℚ := if isNegative modName && decide (masteryLevel ≥ 99) then 1 / 2 else 1
  match modObj with
  | none => none
  | some ModObj.other => none
  | some (ModObj.plain fields) =>
    match JsObj.get fields modName with
    | none => none
    | some value =>
      match skillID, value with
      | none, ModValue.scalar v => some (v * magnitudeMult)
      | some sid, ModValue.scoped entries =>
        let modVal := entries.foldl (fun pv cv => pv + (if cv.1 = sid then cv.2 else 0)) 0
        if modVal = 0 then none else some (modVal * magnitudeMult)
      | _, _ => none

/-- Method `getGlobalModValues(modObj, masteryLevel)` for an argument `modObj` that is not
`null`; the result object has a key for each group of `globalMods` whose signed sum is not
zero, and is `undefined` when it has no key.  The method on every argument is
`getGlobalModValuesOf`. -/
def getGlobalModValues (isNegative : String → Bool) (modObj : Option ModObj)
    (masteryLevel : Int) : Option (JsObj String ℚ) :=
  let modGroups := newSet (globalMods.map (fun gm => gm.group))
  let modValues := modGroups.foldl (fun (modValues : JsObj String ℚ) modGroup =>
      let groupVal := (globalMods.filter (fun gm => gm.group = modGroup)).foldl
        (fun pv gm =>
          pv + orZero (getModValue isNegative modObj gm.name gm.skillID masteryLevel)
            * ((Int.sign gm.sign : Int) : ℚ)) 0
      if groupVal ≠ 0 then JsObj.set modValues modGroup groupVal else modValues) []
  if modValues.length > 0 then some modValues else none

/-- Method `getModValue(modObj, modName, skillID, masteryLevel)` on every argument: for `null`
the test of line 207 finds `modObj === undefined` false and evaluates `modObj.constructor`,
reading a property of `null`, which throws a `TypeError`. -/
def getModValueOf (isNegative : String → Bool) (modObj : ModArg) (modName : String)
    (skillID : Option String) (masteryLevel : Int) : Except JsError (Option ℚ) :=
  match modObj with
  | ModArg.null => Except.error JsError.typeError
  | ModArg.notNull modObj =>
    Except.ok (getModValue isNegative modObj modName skillID masteryLevel)

/-- Method `getGlobalModValues(modObj, masteryLevel)` on every argument: the two nested
`reduce` loops with the calls of `getModValue` that may throw. -/
def getGlobalModValuesOf (isNegative : String → Bool) (modObj : ModArg)
    (masteryLevel : Int) : Except JsError (Option (JsObj String ℚ)) := do
  let modGroups := newSet (globalMods.map (fun gm => gm.group))
  let modValues ← modGroups.foldlM (fun (modValues : JsObj String ℚ) modGroup => do
      let groupVal ← (globalMods.filter (fun gm => gm.group = modGroup)).foldlM
        (fun (pv : ℚ) gm => do
          let modValue ← getModValueOf isNegative modObj gm.name gm.skillID masteryLevel
          pure (pv + orZero modValue * ((Int.sign gm.sign : Int) : ℚ))) 0
      pure (if groupVal ≠ 0 then JsObj.set modValues modGroup groupVal else modValues)) []
  pure (if modValues.length > 0 then some modValues else none)

/-- Method `getObstProps(obst, masteryLevel, modifiers)`. -/
def getObstProps (roundToTickInterval : ℚ → ℚ) (obst : Obstacle) (masteryLevel : Int)
    (modifiers : JsObj String ℚ) : ObstProps :=
  let baseXP := obst.baseExperience
  let baseInt := obst.baseInterval
  let modIntMastery : ℚ := -3 * ((⌊((min 99 masteryLevel : Int) : ℚ) / 10⌋ : Int) : ℚ)
  let modIntPct := modIntMastery + orZero (JsObj.get modifiers "intervalPct")
  let modInt := orZero (JsObj.get modifiers "interval")
  let modXP := orZero (JsObj.get modifiers "skillXP")
  let modXPVal := baseXP * (1 + modXP / 100)
  let modIntVal := roundToTickInterval (baseInt * (1 + modIntPct / 100) + modInt)
  { id := obst.id, xp := modXPVal, interval := modIntVal }

/-- Method `combineModValues(modValueArr)`; `add` is the addition of the numbers the method
runs on, applied by `modValues[modName] += modValueObj[modName]`.  The keys are names of
modifier groups: the result object starts as `{}`, where a key named like a property of
`Object.prototype` would not read as `undefined`. -/
def combineModValues (add : ℚ → ℚ → ℚ) (modValueArr : List (Option (JsObj String ℚ))) :
    JsObj String ℚ :=
  (modValueArr.filterMap id).foldl (fun modValues modValueObj =>
    modValueObj.foldl (fun modValues entry =>
      let modValues := if JsObj.get modValues entry.1 = none
        then JsObj.set modValues entry.1 0 else modValues
      JsObj.set modValues entry.1 (add (orZero (JsObj.get modValues entry.1)) entry.2))
      modValues) []

/-- Inner function `helper(arr, i)` of `getArrayCombinations`, given `args.slice(i)`, `arr`
and the result array `r` so far; `i == max` holds exactly when the slice has one element.
Reading `.length` of a hole or of `args[0]` of an empty `args` throws. -/
def helper {α : Type} : List (Option (List α)) → List α → List (List α) →
    Except JsError (List (List α))
  | [], _, _ => Except.error JsError.typeError
  | none :: _, _, _ => Except.error JsError.typeError
  | some choices :: rest, arr, r =>
    choices.foldlM (fun r c =>
      let a := arr ++ [c]
      if rest.isEmpty then pure (r ++ [a]) else helper rest a r) r

/-- Method `getArrayCombinations(args)`. -/
def getArrayCombinations {α : Type} (args : List (Option (List α))) :
    Except JsError (List (List α)) :=
  helper args [] []

/-- Local `maxCategory` of `getOptimalCourse`: the number of unlock levels not above
`skillLevel`, minus one (so `-1` when none is). -/
def maxCategory (skillLevel : Int) : Int :=
  ((obstacleUnlockLevels.filter (fun level => level ≤ skillLevel)).length : Int) - 1

/-- Body of the first `forEach` of `getOptimalCourse` for one obstacle, on the pair of
`globalModObst` (keyed by obstacle id) and `globalModObstByCat` (indexed by category).  The
call `this.getGlobalModValues(obst.modifiers)` passes no mastery level, so the parameter
takes its default `1`. -/
def globalModStep (game : Game)
    (state : JsObj String (JsObj String ℚ) × SparseArray (List String)) (obst : Obstacle) :
    JsObj String (JsObj String ℚ) × SparseArray (List String) :=
  match obst.modifiers with
  | none => state
  | some modifiers =>
    match getGlobalModValues game.isNegative (some modifiers) 1 with
    | none => state
    | some modValues =>
      let byCat := match SparseArray.get state.2 obst.category with
        | none => SparseArray.set state.2 obst.category []
        | some _ => state.2
      (JsObj.set state.1 obst.id modValues,
       SparseArray.set byCat obst.category
         ((SparseArray.get byCat obst.category).getD [] ++ [obst.id]))

/-- The first `forEach` of `getOptimalCourse`: both arrays after the obstacles `obsts` have
been visited. -/
def globalModScan (game : Game) (obsts : List Obstacle) :
    JsObj String (JsObj String ℚ) × SparseArray (List String) :=
  obsts.foldl (globalModStep game) ([], [])

/-- Local `globalModObst` of `getOptimalCourse`. -/
def globalModObst (game : Game) : JsObj String (JsObj String ℚ) :=
  (globalModScan game game.actions).1

/-- Local `globalModObstByCat` of `getOptimalCourse`. -/
def globalModObstByCat (game : Game) : SparseArray (List String) :=
  (globalModScan game game.actions).2

/-- Local `includedObst` of `getOptimalCourse`. -/
def includedObst (game : Game) (skillLevel : Int) : List Obstacle :=
  game.actions.filter (fun obst => decide ((obst.category : Int) ≤ maxCategory skillLevel))

/-- Local `includedCat` of `getOptimalCourse`, after de-duplication and the call of
`sort((a, b) => a > b)`. -/
def includedCat (game : Game) (skillLevel : Int) : List Nat :=
  jsSort (fun a b => boolToNumber (decide (a > b)))
    (newSet ((includedObst game skillLevel).map (fun obst => obst.category)))

/-- Local `catObstXP` of the second `forEach`, after the call of
`sort((a, b) => a.xp / a.interval < b.xp / b.interval)`. -/
def catObstXP (game : Game) (skillLevel masteryLevel : Int) (catID : Nat) : List ObstProps :=
  let catObst := (includedObst game skillLevel).filter (fun obst =>
    decide (obst.category = catID) && decide (JsObj.get (globalModObst game) obst.id = none))
  jsSort (fun a b => boolToNumber (JsNum.lt (jsDiv a.xp a.interval) (jsDiv b.xp b.interval)))
    (catObst.map (fun obst => getObstProps game.roundToTickInterval obst masteryLevel []))

/-- Local `optimalObstBase` of `getOptimalCourse`: index `catID` holds the id of the first
element of `catObstXP`, or `undefined` (`some none`) when there is none; an index never
written is a hole (`none`). -/
def optimalObstBase (game : Game) (skillLevel masteryLevel : Int) :
    SparseArray (Option String) :=
  (includedCat game skillLevel).foldl (fun optimalObstBase catID =>
    SparseArray.set optimalObstBase catID
      (((catObstXP game skillLevel masteryLevel catID).head?).map (fun p => p.id))) []

/-- Local `optimalObstChoice` of `getOptimalCourse`; `Array.prototype.map` skips holes and
leaves them in its result. -/
def optimalObstChoice (game : Game) (skillLevel masteryLevel : Int) :
    SparseArray (List String) :=
  (optimalObstBase game skillLevel masteryLevel).mapIdx (fun catID entry =>
    entry.map (fun obstID =>
      let obstIDs := match SparseArray.get (globalModObstByCat game) catID with
        | some ids => if ids.length > 0 then ids else []
        | none => []
      let obstIDs := match obstID with
        | some id => obstIDs ++ [id]
        | none => obstIDs
      newSet obstIDs))

/-- Call `game.agility.actions.getObjectByID(id)`. -/
def getObjectByID (game : Game) (id : String) : Option Obstacle :=
  game.actions.find? (fun obst => decide (obst.id = id))

/-- The `obstProps` of a course: `getObstProps` of every obstacle of the course under the
course's total modifiers; looking up an unknown id makes `getObstProps` throw. -/
def courseObstProps (game : Game) (masteryLevel : Int) (totalModValues : JsObj String ℚ) :
    List String → Except JsError (List ObstProps)
  | [] => pure []
  | obstID :: rest =>
    match getObjectByID game obstID with
    | none => Except.error JsError.typeError
    | some obst => do
      let props ← courseObstProps game masteryLevel totalModValues rest
      pure (getObstProps game.roundToTickInterval obst masteryLevel totalModValues :: props)

/-- Expression `totalXP / totalInt` of the last `forEach` for the properties of a course. -/
def xpRate (obstProps : List ObstProps) : JsNum :=
  let totalXP := obstProps.foldl (fun pv cv => pv + cv.xp) 0
  let totalInt := obstProps.foldl (fun pv cv => pv + cv.interval) 0 / 1000
  jsDiv totalXP totalInt

/-- The variables `optimalCourse` and `maxXPRate` of `getOptimalCourse`. -/
structure Best where
  optimalCourse : Option (List ObstProps)
  maxXPRate : JsNum
deriving DecidableEq

/-- Locals `totalModValues` and `obstProps` of the last `forEach` for one course: the
global modifiers of the obstacles of the course are combined and applied to each of them. -/
def courseProps (game : Game) (masteryLevel : Int) (course : List String) :
    Except JsError (List ObstProps) :=
  let totalModValues := combineModValues (fun a b => a + b) (course.map (fun obstID =>
    JsObj.get (globalModObst game) obstID))
  courseObstProps game masteryLevel totalModValues course

/-- One round of the last `forEach` of `getOptimalCourse`. -/
def evaluateCourse (game : Game) (masteryLevel : Int) (best : Best) (course : List String) :
    Except JsError Best := do
  let obstProps ← courseProps game masteryLevel course
  if JsNum.gt (xpRate obstProps) best.maxXPRate then
    pure { optimalCourse := some obstProps, maxXPRate := xpRate obstProps }
  else pure best

/-- Method `getOptimalCourse(skillLevel, masteryLevel)`: a thrown `TypeError`, `undefined`
(`none`) or the `obstProps` of the best course. -/
def getOptimalCourse (game : Game) (skillLevel masteryLevel : Int) :
    Except JsError (Option (List ObstProps)) := do
  let optimalObstCombinations ←
    getArrayCombinations (optimalObstChoice game skillLevel masteryLevel)
  let best ← optimalObstCombinations.foldlM (evaluateCourse game masteryLevel)
    { optimalCourse := none, maxXPRate := JsNum.num 0 }
  pure best.optimalCourse

/-- Function `Math.min` on two numbers: `NaN` as soon as one of them is `NaN`. -/
def mathMin (a b : JsNum) : JsNum :=
  match a, b with
  | JsNum.nan, _ => JsNum.nan
  | _, JsNum.nan => JsNum.nan
  | a, b => if JsNum.lt b a then b else a

/-- Function `Math.max` on two numbers: `NaN` as soon as one of them is `NaN`. -/
def mathMax (a b : JsNum) : JsNum :=
  match a, b with
  | JsNum.nan, _ => JsNum.nan
  | _, JsNum.nan => JsNum.nan
  | a, b => if JsNum.lt a b then b else a

/-- A value passed to `setMastery`, as far as the method looks at it: a finite number `m`, or
any other value (a string, `undefined`, `NaN`, an infinity, an object), given by whether
`parseInt` makes `NaN` of it and by the number `ToNumber` makes of it inside `Math.min`. -/
inductive JsValue where
  | number (m : ℚ)
  | other (nanParse : Bool) (value : JsNum)
deriving DecidableEq

/-- Test `isNaN(parseInt(v))`; the decimal text of a finite number starts with a digit, after
an optional minus sign, so `parseInt` of it is a number. -/
def JsValue.parseIntIsNaN : JsValue → Bool
  | JsValue.number _ => false
  | JsValue.other nanParse _ => nanParse

/-- Conversion `ToNumber(v)` applied by `Math.min` to its argument. -/
def JsValue.toNumber : JsValue → JsNum
  | JsValue.number m => JsNum.num m
  | JsValue.other _ value => value

/-- The string `"12abc"` as an argument of `setMastery`: `parseInt` reads its prefix and
returns `12`, while `ToNumber` of the whole string is `NaN`. -/
def prefixedString : JsValue := JsValue.other false JsNum.nan

/-- The number `Infinity` as an argument of `setMastery`: `parseInt` converts it to the text
`Infinity`, which starts with no digit, and returns `NaN`. -/
def infinity : JsValue := JsValue.other true JsNum.posInf

/-- The fields of an instance of the class.  No method writes `obstacleUnlockLevels` or
`globalMods`; the methods embedded above read the values the constructor gives them. -/
structure State where
  obstacleUnlockLevels : List Int
  globalMods : List GlobalMod
  levelArray : List (Int × JsNum)
deriving DecidableEq

/-- The instance built by the constructor. -/
def initialState : State :=
  { obstacleUnlockLevels := obstacleUnlockLevels
    globalMods := globalMods
    levelArray :=
      [ (1, JsNum.num 50), (10, JsNum.num 50), (20, JsNum.num 50), (30, JsNum.num 50),
        (40, JsNum.num 50), (50, JsNum.num 50), (60, JsNum.num 50), (70, JsNum.num 50),
        (80, JsNum.num 50), (90, JsNum.num 50), (100, JsNum.num 50), (105, JsNum.num 50),
        (110, JsNum.num 50), (115, JsNum.num 50), (118, JsNum.num 50) ] }

/-- Method `setMastery(masteryLevel)`, as a function of the fields. -/
def setMastery (state : State) (masteryLevel : JsValue) : State :=
  if masteryLevel.parseIntIsNaN then state
  else
    let ml := mathMax (JsNum.num 1) (mathMin (JsNum.num 99) masteryLevel.toNumber)
    { state with levelArray := state.levelArray.map (fun i => (i.1, ml)) }

/-! ## Example catalogs -/

/-- Catalog of the end-to-end example: `neutral0` (tier 0, reward 10, time 5000 ms),
`modGranter1` (tier 1, reward 8, time 6000 ms, `increasedGlobalSkillXP: 50`) and `neutral1`
(tier 1, reward 12, time 6000 ms). -/
def exampleActions : List Obstacle :=
  [ { id := "neutral0", category := 0, baseExperience := 10, baseInterval := 5000,
      modifiers := none },
    { id := "modGranter1", category := 1, baseExperience := 8, baseInterval := 6000,
      modifiers := some (ModObj.plain [("increasedGlobalSkillXP", ModValue.scalar 50)]) },
    { id := "neutral1", category := 1, baseExperience := 12, baseInterval := 6000,
      modifiers := none } ]

/-- The example catalog with no modifier flagged negative and a tick rounding that leaves
every interval unchanged. -/
def exampleGame : Game :=
  { actions := exampleActions
    isNegative := fun _ => false
    roundToTickInterval := fun interval => interval }

/-- One obstacle of tier 0 that declares `decreasedGlobalSkillXP: 10`, a modifier flagged
`isNegative`. -/
def dampeningGame : Game :=
  { actions :=
      [ { id := "penalty0", category := 0, baseExperience := 10, baseInterval := 5000,
          modifiers := some (ModObj.plain [("decreasedGlobalSkillXP", ModValue.scalar 10)]) } ]
    isNegative := fun modName => decide (modName = "decreasedGlobalSkillXP")
    roundToTickInterval := fun interval => interval }

/-- Two obstacles of tier 0 without modifiers, the second with the better ratio. -/
def baselineGame : Game :=
  { actions :=
      [ { id := "slow0", category := 0, baseExperience := 1, baseInterval := 1000,
          modifiers := none },
        { id := "fast0", category := 0, baseExperience := 2, baseInterval := 1000,
          modifiers := none } ]
    isNegative := fun _ => false
    roundToTickInterval := fun interval => interval }

/-- Three obstacles without modifiers: `first0` in tier 0, and in tier 1 `short1` (ratio
10 / 10000) listed before `long1` (ratio 100 / 110000, the lower of the two). -/
def heuristicGame : Game :=
  { actions :=
      [ { id := "first0", category := 0, baseExperience := 1, baseInterval := 10000,
          modifiers := none },
        { id := "short1", category := 1, baseExperience := 10, baseInterval := 10000,
          modifiers := none },
        { id := "long1", category := 1, baseExperience := 100, baseInterval := 110000,
          modifiers := none } ]
    isNegative := fun _ => false
    roundToTickInterval := fun interval => interval }

/-- One obstacle, in tier 1; tier 0 has none. -/
def upperTierGame : Game :=
  { actions :=
      [ { id := "lone1", category := 1, baseExperience := 10, baseInterval := 5000,
          modifiers := none } ]
    isNegative := fun _ => false
    roundToTickInterval := fun interval => interval }

/-- One obstacle of tier 0 with base reward 0 and base time 5000 ms. -/
def zeroRewardGame : Game :=
  { actions :=
      [ { id := "idle0", category := 0, baseExperience := 0, baseInterval := 5000,
          modifiers := none } ]
    isNegative := fun _ => false
    roundToTickInterval := fun interval => interval }

/-- A catalog with two tier-0 obstacles of reward 10 and time 5000 ms: `void0`, whose
modifiers take 100% off the reward and 100% off the time of every obstacle of a layout, and
`plain0`, without modifiers. -/
def nanRateGame : Game :=
  { actions :=
      [ { id := "void0", category := 0, baseExperience := 10, baseInterval := 5000,
          modifiers := some (ModObj.plain
            [("decreasedGlobalSkillXP", ModValue.scalar 100),
             ("decreasedSkillIntervalPercent",
               ModValue.scoped [("melvorD:Agility", 100)])]) },
        { id := "plain0", category := 0, baseExperience := 10, baseInterval := 5000,
          modifiers := none } ]
    isNegative := fun _ => false
    roundToTickInterval := fun interval => interval }

/-! ## Reference definitions used in the statements -/

/-- Reference Cartesian product of a list of choice sets: for each element of the first set
in order, that element in front of each layout of the product of the remaining sets. -/
def cartesianProduct {α : Type} : List (List α) → List (List α)
  | [] => [[]]
  | choices :: rest =>
    choices.flatMap (fun x => (cartesianProduct rest).map (fun layout => x :: layout))

/-! ## Lemmas and theorems -/

/-! ### The combination enumerator -/

/-- A loop whose body appends `F c` to the accumulator appends the concatenation of all of
them. -/
theorem foldlM_push {α β : Type} (g : α → List β → Except JsError (List β)) (F : α → List β)
    (hg : ∀ a r, g a r = Except.ok (r ++ F a)) (choices : List α) (r : List β) :
    choices.foldlM (fun r c => g c r) r = Except.ok (r ++ choices.flatMap F) := by
  induction choices generalizing r with
  | nil => simp [pure, Except.pure]
  | cons c cs ih =>
    rw [List.foldlM_cons, hg, List.flatMap_cons]
    show List.foldlM (fun r c => g c r) (r ++ F c) cs = _
    rw [ih, List.append_assoc]

/-- On an array without holes `helper` never throws, and pushes onto `r` the layouts of the
reference product of the remaining sets, each prefixed with `arr`. -/
theorem helper_map_some {α : Type} (choices : List α) (rest : List (List α)) (arr : List α)
    (r : List (List α)) :
    helper ((choices :: rest).map some) arr r
      = Except.ok (r ++ (cartesianProduct (choices :: rest)).map (fun layout => arr ++ layout)) := by
  induction rest generalizing choices arr r with
  | nil =>
    simp only [List.map_cons, List.map_nil]
    rw [helper]
    simp only [List.isEmpty_nil, if_true]
    rw [foldlM_push (fun c r => pure (r ++ [arr ++ [c]])) (fun c => [arr ++ [c]])
      (fun a r => rfl)]
    simp [cartesianProduct, List.map_flatMap]
  | cons c2 rest ih =>
    have h := fun (c : α) (r : List (List α)) => ih c2 (arr ++ [c]) r
    simp only [List.map_cons] at h ⊢
    rw [helper]
    simp only [List.isEmpty_cons, Bool.false_eq_true, if_false]
    rw [foldlM_push (fun c r => helper (some c2 :: List.map some rest) (arr ++ [c]) r) _ h]
    congr 2
    conv_rhs => rw [cartesianProduct]
    simp [List.map_flatMap, List.flatMap_map, Function.comp_def]

/-- The reference product has as many layouts as the product of the sizes of the sets. -/
theorem cartesianProduct_length {α : Type} (args : List (List α)) :
    (cartesianProduct args).length = (args.map List.length).prod := by
  induction args with
  | nil => simp [cartesianProduct]
  | cons choices rest ih =>
    simp only [cartesianProduct, List.map_cons, List.prod_cons]
    induction choices with
    | nil => simp
    | cons c cs ihc => simp [List.flatMap_cons, ihc, ih, Nat.succ_mul, Nat.add_comm]

/-- A layout is in the reference product exactly when it picks, position by position, an
element of the corresponding set. -/
theorem cartesianProduct_mem {α : Type} (args : List (List α)) (layout : List α) :
    layout ∈ cartesianProduct args ↔ List.Forall₂ (fun x choices => x ∈ choices) layout args := by
  induction args generalizing layout with
  | nil => simp [cartesianProduct]
  | cons choices rest ih =>
    simp only [cartesianProduct, List.mem_flatMap, List.mem_map]
    constructor
    · rintro ⟨x, hx, l, hl, rfl⟩
      exact List.Forall₂.cons hx ((ih l).1 hl)
    · intro h
      cases h with
      | cons hx hl => exact ⟨_, hx, _, (ih _).2 hl, rfl⟩

/-- C5: for a non-empty list `args` of choice sets, `getArrayCombinations(args)` returns a list
whose length is the product of the lengths of the choice sets (so it is empty as soon as one
choice set is empty), and every returned layout has length `args.length` with its `i`-th
element drawn from `args[i]`. -/
theorem getArrayCombinations_size_shape {α : Type} (args : List (List α)) (hargs : args ≠ []) :
    ∃ r, getArrayCombinations (args.map some) = Except.ok r ∧
      r.length = (args.map List.length).prod ∧
      ((∃ choices ∈ args, choices = []) → r = []) ∧
      ∀ layout ∈ r, layout.length = args.length ∧
        ∀ (i : Nat) (h1 : i < layout.length) (h2 : i < args.length), layout[i] ∈ args[i] := by
  obtain ⟨choices, rest, rfl⟩ := List.exists_cons_of_ne_nil hargs
  refine ⟨cartesianProduct (choices :: rest), ?_, cartesianProduct_length _, ?_, ?_⟩
  · show helper ((choices :: rest).map some) [] [] = _
    rw [helper_map_some]
    simp
  · rintro ⟨c, hc, rfl⟩
    apply List.eq_nil_of_length_eq_zero
    rw [cartesianProduct_length]
    exact List.prod_eq_zero (List.mem_map.2 ⟨[], hc, rfl⟩)
  · intro layout hl
    have h := (cartesianProduct_mem _ _).1 hl
    refine ⟨h.length_eq, fun i h1 h2 => ?_⟩
    exact (List.forall₂_iff_get.1 h).2 i h1 h2


/-- Instance of C5 on the choice sets `[[1, 2], [3]]`. -/
theorem getArrayCombinations_size_shape_witness :
    ([[1, 2], [3]] : List (List Nat)) ≠ [] ∧
    ∃ r, getArrayCombinations (([[1, 2], [3]] : List (List Nat)).map some) = Except.ok r ∧
      r.length = (([[1, 2], [3]] : List (List Nat)).map List.length).prod ∧
      ((∃ choices ∈ ([[1, 2], [3]] : List (List Nat)), choices = []) → r = []) ∧
      ∀ layout ∈ r, layout.length = ([[1, 2], [3]] : List (List Nat)).length ∧
        ∀ (i : Nat) (h1 : i < layout.length) (h2 : i < ([[1, 2], [3]] : List (List Nat)).length),
          layout[i] ∈ ([[1, 2], [3]] : List (List Nat))[i] :=
  ⟨by decide, getArrayCombinations_size_shape [[1, 2], [3]] (by decide)⟩

/-! ### Effective values and modifier aggregation -/

/-- C6: `getObstProps` returns the id of the action, `xp = baseExperience × (1 + skillXP/100)`
and `interval = roundToTickInterval(baseInterval × (1 + (−3 × floor(min(99, m)/10) +
intervalPct)/100) + interval)`, where `skillXP`, `intervalPct` and `interval` are the entries of
the modifier mapping `M`, a missing key reading as `0`. -/
theorem getObstProps_effective (roundToTickInterval : ℚ → ℚ) (obst : Obstacle) (m : Int)
    (M : JsObj String ℚ) :
    getObstProps roundToTickInterval obst m M =
      { id := obst.id,
        xp := obst.baseExperience * (1 + (JsObj.get M "skillXP").getD 0 / 100),
        interval := roundToTickInterval
          (obst.baseInterval *
              (1 + (-3 * (⌊min (99 : ℚ) (m : ℚ) / 10⌋ : Int) + (JsObj.get M "intervalPct").getD 0) / 100)
            + (JsObj.get M "interval").getD 0) } := by
  have h : ∀ x : Option ℚ, orZero x = x.getD 0 := by
    intro x; cases x <;> rfl
  simp only [getObstProps, h, Int.cast_min, Int.cast_ofNat]

/-- C9: at proficiency 99 `getModValue` is `undefined` exactly when it is at proficiency 98;
otherwise its value is one half of the value at proficiency 98 when the modifier name is
flagged `isNegative`, and the same value when it is not. -/
theorem getModValue_halving (isNegative : String → Bool) (modObj : Option ModObj)
    (modName : String) (skillID : Option String) :
    (getModValue isNegative modObj modName skillID 99 = none ↔
      getModValue isNegative modObj modName skillID 98 = none) ∧
    getModValue isNegative modObj modName skillID 99 =
      (getModValue isNegative modObj modName skillID 98).map
        (fun v => if isNegative modName = true then v / 2 else v) := by
  unfold getModValue
  rcases modObj with _ | (fields | _)
  · simp
  · simp only []
    generalize JsObj.get fields modName = value
    rcases value with _ | (v | entries) <;> rcases skillID with _ | sid <;>
      cases hneg : isNegative modName
    all_goals simp [div_eq_mul_inv]
    all_goals split
    all_goals simp
  · simp


/-- The groups of `globalMods`, in order of first occurrence. -/
theorem modGroups_eq : newSet (globalMods.map (fun gm => gm.group))
    = ["intervalPct", "interval", "skillXP"] := by decide

/-- The loop over the three groups of `getGlobalModValues`, for any reading `val` of the
modifier values: the groups with a non-zero signed sum, in order, each with its sum. -/
theorem groupFold_eq (val : String → Option String → ℚ) :
    (["intervalPct", "interval", "skillXP"].foldl (fun (modValues : JsObj String ℚ) modGroup =>
        let groupVal := (globalMods.filter (fun gm => gm.group = modGroup)).foldl
          (fun pv gm => pv + val gm.name gm.skillID * ((Int.sign gm.sign : Int) : ℚ)) 0
        if groupVal ≠ 0 then JsObj.set modValues modGroup groupVal else modValues) [])
    = [("intervalPct", val "increasedSkillIntervalPercent" (some "melvorD:Agility")
          - val "decreasedSkillIntervalPercent" (some "melvorD:Agility")),
       ("interval", val "increasedSkillInterval" (some "melvorD:Agility")
          - val "decreasedSkillInterval" (some "melvorD:Agility")),
       ("skillXP", val "increasedSkillXP" (some "melvorD:Agility")
          - val "decreasedSkillXP" (some "melvorD:Agility")
          + val "increasedGlobalSkillXP" none - val "decreasedGlobalSkillXP" none)].filter
        (fun entry => decide (entry.2 ≠ 0)) := by
  simp only [globalMods, List.filter, List.foldl]
  have hs1 : ((Int.sign 1 : Int) : ℚ) = 1 := by norm_num
  have hs2 : ((Int.sign (-1) : Int) : ℚ) = -1 := by norm_num
  simp only [hs1, hs2, mul_one, mul_neg, zero_add, ← sub_eq_add_neg]
  by_cases h1 : val "increasedSkillIntervalPercent" (some "melvorD:Agility")
          - val "decreasedSkillIntervalPercent" (some "melvorD:Agility") = 0 <;>
  by_cases h2 : val "increasedSkillInterval" (some "melvorD:Agility")
          - val "decreasedSkillInterval" (some "melvorD:Agility") = 0 <;>
  by_cases h3 : val "increasedSkillXP" (some "melvorD:Agility")
          - val "decreasedSkillXP" (some "melvorD:Agility")
          + val "increasedGlobalSkillXP" none - val "decreasedGlobalSkillXP" none = 0 <;>
    simp [JsObj.set, h1, h2, h3]

/-- C10: `getGlobalModValues` returns `undefined` exactly when the signed sum of `getModValue`
over the names of each of the three groups `intervalPct`, `interval` and `skillXP` (increase
names counted `+`, decrease names counted `−`, `undefined` counted `0`) is zero, and otherwise
the mapping whose keys are exactly the groups with a non-zero signed sum, each mapped to that
sum. -/
theorem getGlobalModValues_groups (isNegative : String → Bool) (modObj : Option ModObj)
    (m : Int) :
    getGlobalModValues isNegative modObj m =
      (let val := fun name scope => orZero (getModValue isNegative modObj name scope m)
       let agility : Option String := some "melvorD:Agility"
       let intervalPct := val "increasedSkillIntervalPercent" agility
         - val "decreasedSkillIntervalPercent" agility
       let interval := val "increasedSkillInterval" agility - val "decreasedSkillInterval" agility
       let skillXP := val "increasedSkillXP" agility - val "decreasedSkillXP" agility
         + val "increasedGlobalSkillXP" none - val "decreasedGlobalSkillXP" none
       if intervalPct = 0 ∧ interval = 0 ∧ skillXP = 0 then none
       else some ([("intervalPct", intervalPct), ("interval", interval), ("skillXP", skillXP)].filter
         (fun entry => decide (entry.2 ≠ 0)))) := by
  unfold getGlobalModValues
  rw [modGroups_eq]
  have h := groupFold_eq (fun name scope => orZero (getModValue isNegative modObj name scope m))
  simp only [] at h ⊢
  rw [h]
  split_ifs with ha hb hb
  · exfalso
    rcases hb with ⟨h1, h2, h3⟩
    simp [List.filter, h1, h2, h3] at ha
  · rfl
  · rfl
  · exfalso
    apply hb
    simp only [gt_iff_lt, List.length_pos, ne_eq, not_not] at ha
    have hall := List.filter_eq_nil_iff.1 ha
    simp at hall
    exact hall


/-! ### The end-to-end example -/

/-- Levels 10 to 19 unlock exactly tiers 0 and 1. -/
theorem maxCategory_tier1 (L : Int) (h1 : 10 ≤ L) (h2 : L < 20) : maxCategory L = 1 := by
  have e0 : (0 : Int) ≤ L := by omega
  have e20 : ¬ (20 : Int) ≤ L := by omega
  have e30 : ¬ (30 : Int) ≤ L := by omega
  have e40 : ¬ (40 : Int) ≤ L := by omega
  have e50 : ¬ (50 : Int) ≤ L := by omega
  have e60 : ¬ (60 : Int) ≤ L := by omega
  have e70 : ¬ (70 : Int) ≤ L := by omega
  have e80 : ¬ (80 : Int) ≤ L := by omega
  have e90 : ¬ (90 : Int) ≤ L := by omega
  have e100 : ¬ (100 : Int) ≤ L := by omega
  have e105 : ¬ (105 : Int) ≤ L := by omega
  have e110 : ¬ (110 : Int) ≤ L := by omega
  have e115 : ¬ (115 : Int) ≤ L := by omega
  have e118 : ¬ (118 : Int) ≤ L := by omega
  simp [maxCategory, obstacleUnlockLevels, List.filter, e0, h1, e20, e30, e40, e50, e60, e70, e80,
    e90, e100, e105, e110, e115, e118]

/-- A mastery level from 0 to 9 gives no interval reduction. -/
theorem masteryFloor_zero (m : Int) (h1 : 0 ≤ m) (h2 : m < 10) :
    ⌊((min 99 m : Int) : ℚ) / 10⌋ = 0 := by
  rw [Int.floor_eq_iff]
  have hm : min 99 m = m := by omega
  rw [hm]
  constructor
  · have : (0 : ℚ) ≤ (m : ℚ) := by exact_mod_cast h1
    simp only [Int.cast_zero]; positivity
  · have : (m : ℚ) < 10 := by exact_mod_cast h2
    simp only [Int.cast_zero, zero_add]
    rw [div_lt_one (by norm_num)]
    exact this

/-- C7 (as the code behaves): for the example catalog, whatever the `isNegative` flags, at a
level from 10 to 19 (tiers 0 and 1 unlocked), a mastery level from 0 to 9 (no interval
reduction) and a tick rounding that leaves 5000 and 6000 unchanged, the candidate layouts are
`[neutral0, modGranter1]` and `[neutral0, neutral1]`; the layout with `neutral1` is scored with
rewards 10 and 12 at rate `(10 + 12) / 11`, the layout with `modGranter1` with rewards 15 and 12
(the `+50%` applies to every obstacle of the layout, `modGranter1` included) at rate
`(15 + 12) / 11`, and `getOptimalCourse` returns the latter with its rewards and times. -/
theorem example_course (isNegative : String → Bool) (roundToTickInterval : ℚ → ℚ)
    (L m : Int) (hL1 : 10 ≤ L) (hL2 : L < 20) (hm1 : 0 ≤ m) (hm2 : m < 10)
    (hq1 : roundToTickInterval 5000 = 5000) (hq2 : roundToTickInterval 6000 = 6000) :
    getArrayCombinations (optimalObstChoice ⟨exampleActions, isNegative, roundToTickInterval⟩ L m)
      = Except.ok [["neutral0", "modGranter1"], ["neutral0", "neutral1"]] ∧
    courseProps ⟨exampleActions, isNegative, roundToTickInterval⟩ m ["neutral0", "neutral1"]
      = Except.ok [⟨"neutral0", 10, 5000⟩, ⟨"neutral1", 12, 6000⟩] ∧
    xpRate [⟨"neutral0", 10, 5000⟩, ⟨"neutral1", 12, 6000⟩] = JsNum.num ((10 + 12) / 11) ∧
    courseProps ⟨exampleActions, isNegative, roundToTickInterval⟩ m ["neutral0", "modGranter1"]
      = Except.ok [⟨"neutral0", 15, 5000⟩, ⟨"modGranter1", 12, 6000⟩] ∧
    xpRate [⟨"neutral0", 15, 5000⟩, ⟨"modGranter1", 12, 6000⟩] = JsNum.num ((15 + 12) / 11) ∧
    getOptimalCourse ⟨exampleActions, isNegative, roundToTickInterval⟩ L m =
      Except.ok (some [⟨"neutral0", 15, 5000⟩, ⟨"modGranter1", 12, 6000⟩]) := by
  have hmc := maxCategory_tier1 L hL1 hL2
  have hfl : ⌊min (99 : ℚ) (m : ℚ) / 10⌋ = 0 := by
    have h := masteryFloor_zero m hm1 hm2
    push_cast at h
    exact h
  have hgm : globalModScan ⟨exampleActions, isNegative, roundToTickInterval⟩ exampleActions
      = ([("modGranter1", [("skillXP", 50)])], [none, some ["modGranter1"]]) := by
    have hg : getGlobalModValues isNegative
        (some (ModObj.plain [("increasedGlobalSkillXP", ModValue.scalar 50)])) 1
        = some [("skillXP", 50)] := by
      unfold getGlobalModValues
      rw [modGroups_eq]
      have h := groupFold_eq (fun name scope => orZero (getModValue isNegative
        (some (ModObj.plain [("increasedGlobalSkillXP", ModValue.scalar 50)])) name scope 1))
      simp only [] at h ⊢
      rw [h]
      simp [getModValue, JsObj.get, orZero]
    simp [globalModScan, globalModStep, exampleActions, hg, JsObj.set, SparseArray.get,
      SparseArray.set]
  have hgo : globalModObst ⟨exampleActions, isNegative, roundToTickInterval⟩
      = [("modGranter1", [("skillXP", 50)])] := by
    simp [globalModObst, hgm]
  have hgc : globalModObstByCat ⟨exampleActions, isNegative, roundToTickInterval⟩
      = [none, some ["modGranter1"]] := by
    simp [globalModObstByCat, hgm]
  have hinc : includedObst ⟨exampleActions, isNegative, roundToTickInterval⟩ L = exampleActions := by
    simp [includedObst, hmc, exampleActions]
  have hcat : includedCat ⟨exampleActions, isNegative, roundToTickInterval⟩ L = [0, 1] := by
    simp only [includedCat, hinc]
    simp [exampleActions, newSet, jsSort, sortInsert, boolToNumber]
  have hbase : optimalObstBase ⟨exampleActions, isNegative, roundToTickInterval⟩ L m
      = [some (some "neutral0"), some (some "neutral1")] := by
    simp only [optimalObstBase, hcat, catObstXP, hinc, hgo]
    simp [exampleActions, JsObj.get, jsSort, sortInsert, SparseArray.set, getObstProps]
  have hchoice : optimalObstChoice ⟨exampleActions, isNegative, roundToTickInterval⟩ L m
      = [some ["neutral0"], some ["modGranter1", "neutral1"]] := by
    simp only [optimalObstChoice, hbase, hgc]
    simp [SparseArray.get, newSet, List.mapIdx_cons]
  have hp1 : courseProps ⟨exampleActions, isNegative, roundToTickInterval⟩ m
      ["neutral0", "modGranter1"]
      = Except.ok [⟨"neutral0", 15, 5000⟩, ⟨"modGranter1", 12, 6000⟩] := by
    simp only [courseProps, hgo]
    simp [courseObstProps, getObjectByID, exampleActions, JsObj.get,
      combineModValues, JsObj.set, orZero, getObstProps, hfl]
    norm_num [hq1, hq2]
    rfl
  have hp2 : courseProps ⟨exampleActions, isNegative, roundToTickInterval⟩ m
      ["neutral0", "neutral1"]
      = Except.ok [⟨"neutral0", 10, 5000⟩, ⟨"neutral1", 12, 6000⟩] := by
    simp only [courseProps, hgo]
    simp [courseObstProps, getObjectByID, exampleActions, JsObj.get,
      combineModValues, JsObj.set, orZero, getObstProps, hfl]
    norm_num [hq1, hq2]
    rfl
  have hr1 : xpRate [⟨"neutral0", 15, 5000⟩, ⟨"modGranter1", 12, 6000⟩] = JsNum.num ((15 + 12) / 11) := by
    norm_num [xpRate, jsDiv]
  have hr2 : xpRate [⟨"neutral0", 10, 5000⟩, ⟨"neutral1", 12, 6000⟩] = JsNum.num ((10 + 12) / 11) := by
    norm_num [xpRate, jsDiv]
  have hcomb : getArrayCombinations [some ["neutral0"], some ["modGranter1", "neutral1"]]
      = Except.ok [["neutral0", "modGranter1"], ["neutral0", "neutral1"]] := by decide
  refine ⟨by rw [hchoice, hcomb], hp2, hr2, hp1, hr1, ?_⟩
  simp only [getOptimalCourse, hchoice]
  rw [hcomb]
  simp [evaluateCourse, hp1, hp2, hr1, hr2, JsNum.gt, JsNum.lt, bind, Except.bind, pure,
    Except.pure, Functor.map, Except.map, List.foldlM]
  norm_num [JsNum.lt]

/-- Instance of C7 for `exampleGame` at level 10 and mastery level 1. -/
theorem example_course_witness :
    getArrayCombinations (optimalObstChoice exampleGame 10 1)
      = Except.ok [["neutral0", "modGranter1"], ["neutral0", "neutral1"]] ∧
    courseProps exampleGame 1 ["neutral0", "neutral1"]
      = Except.ok [⟨"neutral0", 10, 5000⟩, ⟨"neutral1", 12, 6000⟩] ∧
    xpRate [⟨"neutral0", 10, 5000⟩, ⟨"neutral1", 12, 6000⟩] = JsNum.num ((10 + 12) / 11) ∧
    courseProps exampleGame 1 ["neutral0", "modGranter1"]
      = Except.ok [⟨"neutral0", 15, 5000⟩, ⟨"modGranter1", 12, 6000⟩] ∧
    xpRate [⟨"neutral0", 15, 5000⟩, ⟨"modGranter1", 12, 6000⟩] = JsNum.num ((15 + 12) / 11) ∧
    getOptimalCourse exampleGame 10 1 =
      Except.ok (some [⟨"neutral0", 15, 5000⟩, ⟨"modGranter1", 12, 6000⟩]) :=
  example_course (fun _ => false) (fun interval => interval) 10 1
    (by decide) (by decide) (by decide) (by decide) rfl rfl

/-- C7 (as stated) fails: the layout `[neutral0, modGranter1]` is not scored at rate
`(15 + 8) / 11`; the `+50%` also raises the reward of `modGranter1` from 8 to 12. -/
theorem example_rate_counterexample :
    ¬ ∃ props, courseProps exampleGame 1 ["neutral0", "modGranter1"] = Except.ok props ∧
      xpRate props = JsNum.num ((15 + 8) / 11) := by
  rintro ⟨props, h1, h2⟩
  have h : courseProps exampleGame 1 ["neutral0", "modGranter1"]
      = Except.ok [⟨"neutral0", 15, 5000⟩, ⟨"modGranter1", 12, 6000⟩] := by decide!
  rw [h] at h1
  cases h1
  revert h2
  decide!

/-! ### Departures of the code from its documentation -/

/-- C8 (code at the failing input): with `decreasedGlobalSkillXP: 10` flagged `isNegative`,
`getGlobalModValues` called with mastery level 99 gives `skillXP = -5`, but `getOptimalCourse`
calls it without a mastery level: the stored modifier is `skillXP = -10` and the course
returned at mastery level 99 has reward `10 × (1 − 10/100) = 9`, as at mastery level 98,
not `9.5`. -/
theorem dampening_not_applied :
    getGlobalModValues dampeningGame.isNegative
        (some (ModObj.plain [("decreasedGlobalSkillXP", ModValue.scalar 10)])) 99
      = some [("skillXP", -5)] ∧
    globalModObst dampeningGame = [("penalty0", [("skillXP", -10)])] ∧
    getOptimalCourse dampeningGame 0 99 = Except.ok (some [⟨"penalty0", 9, 3650⟩]) ∧
    getOptimalCourse dampeningGame 0 98 = Except.ok (some [⟨"penalty0", 9, 3650⟩]) := by
  decide!

/-- C3 (code at the failing input): with two neutral obstacles in tier 0, `slow0` (ratio
1/1000) listed before `fast0` (ratio 2/1000), the baseline pick is `slow0` although the ratio
of `fast0` is strictly greater; the comparator passed to `sort` returns a boolean, never a
negative number, and the array stays in catalog order. -/
theorem baseline_not_best :
    optimalObstBase baselineGame 0 1 = [some (some "slow0")] ∧
    catObstXP baselineGame 0 1 0 = [⟨"slow0", 1, 1000⟩, ⟨"fast0", 2, 1000⟩] ∧
    JsNum.lt (jsDiv 1 1000) (jsDiv 2 1000) = true ∧
    getOptimalCourse baselineGame 0 1 = Except.ok (some [⟨"slow0", 1, 1000⟩]) := by
  decide!

/-- C1 (code at the failing input): in `heuristicGame` the best neutral obstacle of tier 1 by
its own ratio is `short1`, also first in catalog order, and `getOptimalCourse` returns the
course `[first0, short1]` of rate `11 / 20`; the layout `[first0, long1]`, which picks an
action of each included tier, is scored by the same rule at rate `101 / 120`, strictly
greater. -/
theorem course_not_optimal :
    getOptimalCourse heuristicGame 10 1
      = Except.ok (some [⟨"first0", 1, 10000⟩, ⟨"short1", 10, 10000⟩]) ∧
    xpRate [⟨"first0", 1, 10000⟩, ⟨"short1", 10, 10000⟩] = JsNum.num (11 / 20) ∧
    JsNum.lt (jsDiv 100 110000) (jsDiv 10 10000) = true ∧
    courseProps heuristicGame 1 ["first0", "long1"]
      = Except.ok [⟨"first0", 1, 10000⟩, ⟨"long1", 100, 110000⟩] ∧
    xpRate [⟨"first0", 1, 10000⟩, ⟨"long1", 100, 110000⟩] = JsNum.num (101 / 120) ∧
    JsNum.gt (JsNum.num (101 / 120)) (JsNum.num (11 / 20)) = true := by
  decide!

/-! ### Arrays, objects, sets and sorting -/

/-- Slot `j` of an array after the write `arr[i] = v`. -/
theorem SparseArray.getElem?_set {α : Type} (arr : SparseArray α) (i j : Nat) (v : α) :
    (SparseArray.set arr i v)[j]? =
      if j = i then some (some v)
      else if j < arr.length then arr[j]?
      else if j < i then some none else none := by
  unfold SparseArray.set
  by_cases hi : i < arr.length
  · simp only [hi, if_true, List.getElem?_set]
    by_cases hji : j = i
    · subst hji; simp [hi]
    · have hij : ¬ i = j := fun h => hji h.symm
      simp only [hij, hji, if_false]
      by_cases hj : j < arr.length
      · simp [hj]
      · have : ¬ j < i := by omega
        simp [hj, this, List.getElem?_eq_none (Nat.le_of_not_lt hj)]
  · simp only [hi, if_false]
    by_cases hji : j = i
    · subst hji
      have hlen : (arr ++ List.replicate (j - arr.length) none).length = j := by
        simp only [List.length_append, List.length_replicate]; omega
      rw [List.getElem?_append_right (by omega), hlen]
      simp
    · simp only [hji, if_false]
      by_cases hj : j < arr.length
      · simp only [hj, if_true, List.append_assoc]
        rw [List.getElem?_append_left hj]
      · simp only [hj, if_false, List.append_assoc]
        rw [List.getElem?_append_right (Nat.le_of_not_lt hj), List.getElem?_append,
          List.getElem?_replicate]
        by_cases hlt : j < i
        · have : j - arr.length < i - arr.length := by omega
          simp [hlt, this]
        · have : ¬ j - arr.length < i - arr.length := by omega
          simp only [List.length_replicate, this, hlt, if_false]
          have h2 : j - arr.length - (i - arr.length) ≠ 0 := by omega
          cases h3 : j - arr.length - (i - arr.length) with
          | zero => exact absurd h3 h2
          | succ n => simp

/-- Reading `arr[j]` after the write `arr[i] = v`. -/
theorem SparseArray.slotGet_set {α : Type} (arr : SparseArray α) (i j : Nat) (v : α) :
    SparseArray.get (SparseArray.set arr i v) j =
      if j = i then some v else SparseArray.get arr j := by
  unfold SparseArray.get
  rw [SparseArray.getElem?_set]
  by_cases hji : j = i
  · simp [hji]
  · simp only [hji, if_false]
    by_cases hj : j < arr.length
    · simp [hj]
    · simp only [hj, if_false, List.getElem?_eq_none (Nat.le_of_not_lt hj)]
      split_ifs <;> rfl

/-- Length of an array after the write `arr[i] = v`. -/
theorem SparseArray.length_set {α : Type} (arr : SparseArray α) (i : Nat) (v : α) :
    (SparseArray.set arr i v).length = max arr.length (i + 1) := by
  unfold SparseArray.set
  split_ifs with h
  · simp; omega
  · simp; omega

/-- Reading `obj[k']` after the write `obj[k] = v`. -/
theorem JsObj.keyGet_set {κ β : Type} [DecidableEq κ] (obj : JsObj κ β) (k k' : κ) (v : β) :
    JsObj.get (JsObj.set obj k v) k' = if k' = k then some v else JsObj.get obj k' := by
  induction obj with
  | nil =>
    by_cases h : k = k'
    · simp [JsObj.set, JsObj.get, h]
    · have h' : ¬ k' = k := fun e => h e.symm
      simp [JsObj.set, JsObj.get, h, h']
  | cons p rest ih =>
    obtain ⟨k0, v0⟩ := p
    by_cases h0 : k0 = k
    · subst h0
      by_cases h : k0 = k'
      · simp [JsObj.set, JsObj.get, h]
      · have h' : ¬ k' = k0 := fun e => h e.symm
        simp [JsObj.set, JsObj.get, h, h']
    · by_cases h : k0 = k'
      · subst h
        simp [JsObj.set, JsObj.get, h0]
      · simp [JsObj.set, JsObj.get, h0, h, ih]

/-- Adding one more element to a `Set`. -/
theorem newSet_append_singleton {α : Type} [DecidableEq α] (xs : List α) (x : α) :
    newSet (xs ++ [x]) = if x ∈ newSet xs then newSet xs else newSet xs ++ [x] := by
  simp [newSet, List.foldl_append]

/-- The array of a `Set` has the elements of the array it was made from. -/
theorem mem_newSet {α : Type} [DecidableEq α] (xs : List α) (x : α) :
    x ∈ newSet xs ↔ x ∈ xs := by
  induction xs using List.reverseRecOn generalizing x with
  | nil => simp [newSet]
  | append_singleton xs y ih =>
    rw [newSet_append_singleton]
    split_ifs with h
    · rw [ih] at h
      simp only [ih, List.mem_append, List.mem_singleton]
      constructor
      · exact Or.inl
      · rintro (h1 | rfl)
        · exact h1
        · exact h
    · simp [ih]

/-- The array of a `Set` has no repetition. -/
theorem nodup_newSet {α : Type} [DecidableEq α] (xs : List α) : (newSet xs).Nodup := by
  induction xs using List.reverseRecOn with
  | nil => simp [newSet]
  | append_singleton xs y ih =>
    rw [newSet_append_singleton]
    split_ifs with h
    · exact ih
    · rw [List.nodup_append]
      refine ⟨ih, List.nodup_singleton y, ?_⟩
      intro a ha hb
      rw [List.mem_singleton] at hb
      subst hb
      exact h ha

/-- One insertion step only reorders. -/
theorem sortInsert_perm {α : Type} (comparefn : α → α → Int) (x : α) (ys : List α) :
    (sortInsert comparefn x ys).Perm (x :: ys) := by
  induction ys with
  | nil => simp [sortInsert]
  | cons y ys ih =>
    simp only [sortInsert]
    split_ifs
    · exact (List.Perm.cons y ih).trans (List.Perm.swap x y ys)
    · exact List.Perm.refl _

/-- Sorting only reorders the array, whatever the comparator. -/
theorem jsSort_perm {α : Type} (comparefn : α → α → Int) (xs : List α) :
    (jsSort comparefn xs).Perm xs := by
  unfold jsSort
  refine (List.reverse_perm _).trans ?_
  induction xs using List.reverseRecOn with
  | nil => simp
  | append_singleton xs y ih =>
    rw [List.foldl_append]
    simp only [List.foldl_cons, List.foldl_nil]
    refine (sortInsert_perm _ _ _).trans ?_
    refine (List.Perm.cons y ih).trans ?_
    exact (List.perm_append_singleton y xs).symm

/-- A comparator that never returns a negative number leaves the array as it is. -/
theorem jsSort_of_nonneg {α : Type} (comparefn : α → α → Int)
    (h : ∀ a b, 0 ≤ comparefn a b) (xs : List α) : jsSort comparefn xs = xs := by
  unfold jsSort
  have key : ∀ xs : List α,
      xs.foldl (fun sortedRev x => sortInsert comparefn x sortedRev) [] = xs.reverse := by
    intro xs
    induction xs using List.reverseRecOn with
    | nil => simp
    | append_singleton xs y ih =>
      rw [List.foldl_append, ih]
      simp only [List.foldl_cons, List.foldl_nil, List.reverse_append, List.reverse_cons,
        List.reverse_nil, List.nil_append, List.singleton_append]
      cases hr : xs.reverse with
      | nil => simp [sortInsert]
      | cons z zs =>
        have : ¬ comparefn y z < 0 := not_lt.2 (h y z)
        simp [sortInsert, this]
  rw [key, List.reverse_reverse]

/-! ### The candidate selector -/

/-- An `undefined` declaration aggregates to `undefined`. -/
theorem getGlobalModValues_undefined (isNegative : String → Bool) (m : Int) :
    getGlobalModValues isNegative none m = none := by
  unfold getGlobalModValues
  rw [modGroups_eq]
  have h := groupFold_eq (fun name scope => orZero (getModValue isNegative none name scope m))
  simp only [] at h ⊢
  rw [h]
  simp [getModValue, orZero]

/-- The body of the first `forEach` in one piece: nothing changes for an obstacle whose
aggregation is `undefined`; otherwise the obstacle is recorded under its id and its id is pushed
on the array of its category. -/
theorem globalModStep_eq (game : Game)
    (state : JsObj String (JsObj String ℚ) × SparseArray (List String)) (obst : Obstacle) :
    globalModStep game state obst =
      match getGlobalModValues game.isNegative obst.modifiers 1 with
      | none => state
      | some modValues =>
        (JsObj.set state.1 obst.id modValues,
         SparseArray.set state.2 obst.category
           ((SparseArray.get state.2 obst.category).getD [] ++ [obst.id])) := by
  unfold globalModStep
  cases hm : obst.modifiers with
  | none => simp [getGlobalModValues_undefined]
  | some modifiers =>
    simp only []
    cases hg : getGlobalModValues game.isNegative (some modifiers) 1 with
    | none => rfl
    | some modValues =>
      simp only []
      cases hc : SparseArray.get state.2 obst.category with
      | none =>
        simp only [SparseArray.slotGet_set, if_true, Option.getD_some, Option.getD_none]
        congr 1
        apply List.ext_getElem?
        intro j
        simp only [SparseArray.getElem?_set, SparseArray.length_set]
        by_cases hj : j = obst.category
        · simp [hj]
        · simp only [hj, if_false]
          by_cases h1 : j < state.2.length
          · have : j < max state.2.length (obst.category + 1) := by omega
            simp [h1, this]
          · by_cases h2 : j < obst.category
            · have : j < max state.2.length (obst.category + 1) := by omega
              simp [h1, h2, this]
            · have : ¬ j < max state.2.length (obst.category + 1) := by omega
              simp [h1, h2, this]
      | some ids => simp only [hc]


/-- An id is absent from `globalModObst` after the scan exactly when it was absent before and
no visited obstacle with that id has a defined aggregation. -/
theorem globalModScan_fst (game : Game) (obsts : List Obstacle)
    (state : JsObj String (JsObj String ℚ) × SparseArray (List String)) (id : String) :
    JsObj.get (obsts.foldl (globalModStep game) state).1 id = none ↔
      JsObj.get state.1 id = none ∧
      ∀ obst ∈ obsts, obst.id = id → getGlobalModValues game.isNegative obst.modifiers 1 = none := by
  induction obsts generalizing state with
  | nil => simp
  | cons o os ih =>
    rw [List.foldl_cons, ih, globalModStep_eq]
    cases hg : getGlobalModValues game.isNegative o.modifiers 1 with
    | none =>
      simp only [List.mem_cons, forall_eq_or_imp, hg, implies_true, true_and]
    | some mv =>
      simp only [JsObj.keyGet_set, List.mem_cons, forall_eq_or_imp, hg]
      by_cases hid : id = o.id
      · simp [hid]
      · have hid' : ¬ o.id = id := fun e => hid e.symm
        simp [hid, hid']

/-- The array of a category after the scan: the ids of the visited obstacles of that category
with a defined aggregation, in order, pushed after what was there before. -/
theorem globalModScan_snd (game : Game) (obsts : List Obstacle)
    (state : JsObj String (JsObj String ℚ) × SparseArray (List String)) (catID : Nat) :
    SparseArray.get (obsts.foldl (globalModStep game) state).2 catID =
      (let ids := (obsts.filter (fun obst => decide (obst.category = catID) &&
          (getGlobalModValues game.isNegative obst.modifiers 1).isSome)).map (fun obst => obst.id)
       if ids = [] then SparseArray.get state.2 catID
       else some ((SparseArray.get state.2 catID).getD [] ++ ids)) := by
  induction obsts generalizing state with
  | nil => simp
  | cons o os ih =>
    rw [List.foldl_cons, ih, globalModStep_eq]
    cases hg : getGlobalModValues game.isNegative o.modifiers 1 with
    | none => simp [List.filter_cons, hg]
    | some mv =>
      simp only [SparseArray.slotGet_set, List.filter_cons, hg, Option.isSome_some, Bool.and_true]
      by_cases hc : o.category = catID
      · subst hc
        simp only [if_true, decide_True, List.map_cons, Option.getD_some]
        simp
      · have hc' : ¬ catID = o.category := fun e => hc e.symm
        simp [hc, hc']


/-- After the writes `arr[c] = f c` for every `c` of `cats`, slot `t` holds `f t` for every `t` of
`cats`. -/
theorem foldl_set_getElem? {α : Type} (f : Nat → α) (cats : List Nat) (init : SparseArray α)
    (t : Nat) (ht : t ∈ cats) :
    (cats.foldl (fun arr c => SparseArray.set arr c (f c)) init)[t]? = some (some (f t)) := by
  induction cats using List.reverseRecOn with
  | nil => simp at ht
  | append_singleton cs c ih =>
    rw [List.foldl_append]
    simp only [List.foldl_cons, List.foldl_nil, SparseArray.getElem?_set]
    by_cases htc : t = c
    · simp [htc]
    · have hmem : t ∈ cs := by
        rcases List.mem_append.1 ht with h | h
        · exact h
        · exact absurd (List.mem_singleton.1 h) htc
      have h := ih hmem
      have hlt : t < (cs.foldl (fun arr c => SparseArray.set arr c (f c)) init).length := by
        rcases List.getElem?_eq_some_iff.1 h with ⟨hlt, _⟩
        exact hlt
      simp [htc, hlt, h]

/-- The included tiers are the categories, not above `maxCategory`, of the obstacles of the
catalog. -/
theorem mem_includedCat (game : Game) (skillLevel : Int) (t : Nat) :
    t ∈ includedCat game skillLevel ↔
      ∃ obst ∈ game.actions, obst.category = t ∧ (t : Int) ≤ maxCategory skillLevel := by
  unfold includedCat
  rw [(jsSort_perm _ _).mem_iff, mem_newSet]
  simp only [includedObst, List.mem_map, List.mem_filter, decide_eq_true_eq]
  constructor
  · rintro ⟨obst, ⟨hmem, hle⟩, rfl⟩
    exact ⟨obst, hmem, rfl, hle⟩
  · rintro ⟨obst, hmem, rfl, hle⟩
    exact ⟨obst, ⟨hmem, hle⟩, rfl⟩

/-- An id is absent from `globalModObst` exactly when no obstacle with that id has a defined
aggregation. -/
theorem globalModObst_get_eq_none (game : Game) (id : String) :
    JsObj.get (globalModObst game) id = none ↔
      ∀ obst ∈ game.actions, obst.id = id →
        getGlobalModValues game.isNegative obst.modifiers 1 = none := by
  unfold globalModObst globalModScan
  rw [globalModScan_fst]
  simp [JsObj.get]

/-- Entry `catID` of `globalModObstByCat`: the ids of the obstacles of that category with a
defined aggregation, in catalog order; `undefined` when there is none. -/
theorem globalModObstByCat_get (game : Game) (catID : Nat) :
    SparseArray.get (globalModObstByCat game) catID =
      (let ids := (game.actions.filter (fun obst => decide (obst.category = catID) &&
          (getGlobalModValues game.isNegative obst.modifiers 1).isSome)).map (fun obst => obst.id)
       if ids = [] then none else some ids) := by
  unfold globalModObstByCat globalModScan
  rw [globalModScan_snd]
  simp [SparseArray.get]

/-- Slot `t` of `optimalObstBase` for an included tier `t`. -/
theorem optimalObstBase_getElem? (game : Game) (skillLevel masteryLevel : Int) (t : Nat)
    (ht : t ∈ includedCat game skillLevel) :
    (optimalObstBase game skillLevel masteryLevel)[t]? =
      some (some (((catObstXP game skillLevel masteryLevel t).head?).map (fun p => p.id))) := by
  unfold optimalObstBase
  exact foldl_set_getElem? _ _ _ _ ht

/-- The elements of `catObstXP` are the properties, without modifiers, of the included
obstacles of the tier whose id is absent from `globalModObst`. -/
theorem mem_catObstXP (game : Game) (skillLevel masteryLevel : Int) (t : Nat) (p : ObstProps) :
    p ∈ catObstXP game skillLevel masteryLevel t ↔
      ∃ obst ∈ game.actions, (obst.category : Int) ≤ maxCategory skillLevel ∧
        obst.category = t ∧ JsObj.get (globalModObst game) obst.id = none ∧
        p = getObstProps game.roundToTickInterval obst masteryLevel [] := by
  unfold catObstXP
  simp only []
  rw [(jsSort_perm _ _).mem_iff]
  simp only [includedObst, List.mem_map, List.mem_filter, decide_eq_true_eq, Bool.and_eq_true]
  constructor
  · rintro ⟨obst, ⟨⟨hmem, hle⟩, hc, hn⟩, rfl⟩
    exact ⟨obst, hmem, hle, hc, hn, rfl⟩
  · rintro ⟨obst, hmem, hle, hc, hn, rfl⟩
    exact ⟨obst, ⟨⟨hmem, hle⟩, hc, hn⟩, rfl⟩

/-- Slot `t` of `optimalObstChoice` for an included tier `t`: the ids of the obstacles of the
tier with a defined aggregation, then the baseline pick when there is one, without
repetition. -/
theorem optimalObstChoice_getElem? (game : Game) (skillLevel masteryLevel : Int) (t : Nat)
    (ht : t ∈ includedCat game skillLevel) :
    (optimalObstChoice game skillLevel masteryLevel)[t]? =
      some (some (newSet
        ((game.actions.filter (fun obst => decide (obst.category = t) &&
            (getGlobalModValues game.isNegative obst.modifiers 1).isSome)).map (fun obst => obst.id)
          ++ (((catObstXP game skillLevel masteryLevel t).head?).map (fun p => p.id)).toList))) := by
  unfold optimalObstChoice
  rw [List.getElem?_mapIdx, optimalObstBase_getElem? game skillLevel masteryLevel t ht,
    globalModObstByCat_get]
  simp only [Option.map_some']
  congr 3
  generalize (game.actions.filter (fun obst => decide (obst.category = t) &&
    (getGlobalModValues game.isNegative obst.modifiers 1).isSome)).map (fun obst => obst.id) = ids
  cases ((catObstXP game skillLevel masteryLevel t).head?).map (fun p => p.id) with
  | none =>
    cases ids with
    | nil => simp
    | cons x xs => simp
  | some id =>
    cases ids with
    | nil => simp
    | cons x xs => simp


/-- C4: for every included tier `t`, `optimalObstChoice[t]` contains exactly the ids of the
modifier-granting actions of tier `t` (those whose `getGlobalModValues` result is not
`undefined`) together with the baseline pick `optimalObstBase[t]` when it is defined, and no id
occurs in it twice; in a catalog with distinct ids, a neutral action of the tier that is a
candidate is the baseline pick. -/
theorem optimalObstChoice_composition (game : Game) (skillLevel masteryLevel : Int) (t : Nat)
    (ht : t ∈ includedCat game skillLevel) :
    ∃ choice, (optimalObstChoice game skillLevel masteryLevel)[t]? = some (some choice) ∧
      choice.Nodup ∧
      (∀ id, id ∈ choice ↔
        (∃ obst ∈ game.actions, obst.category = t ∧
          getGlobalModValues game.isNegative obst.modifiers 1 ≠ none ∧ obst.id = id) ∨
        (optimalObstBase game skillLevel masteryLevel)[t]? = some (some (some id))) ∧
      ((game.actions.map (fun obst => obst.id)).Nodup →
        ∀ obst ∈ game.actions, obst.category = t →
          getGlobalModValues game.isNegative obst.modifiers 1 = none →
          obst.id ∈ choice →
          (optimalObstBase game skillLevel masteryLevel)[t]? = some (some (some obst.id))) := by
  have hmem : ∀ id, id ∈ newSet
        ((game.actions.filter (fun obst => decide (obst.category = t) &&
            (getGlobalModValues game.isNegative obst.modifiers 1).isSome)).map (fun obst => obst.id)
          ++ (((catObstXP game skillLevel masteryLevel t).head?).map (fun p => p.id)).toList) ↔
      (∃ obst ∈ game.actions, obst.category = t ∧
          getGlobalModValues game.isNegative obst.modifiers 1 ≠ none ∧ obst.id = id) ∨
        (optimalObstBase game skillLevel masteryLevel)[t]? = some (some (some id)) := by
    intro id
    rw [mem_newSet, List.mem_append, optimalObstBase_getElem? game skillLevel masteryLevel t ht]
    apply or_congr
    · simp only [List.mem_map, List.mem_filter, Bool.and_eq_true, decide_eq_true_eq,
        Option.isSome_iff_ne_none]
      constructor
      · rintro ⟨obst, ⟨hm, hc, hg⟩, rfl⟩
        exact ⟨obst, hm, hc, hg, rfl⟩
      · rintro ⟨obst, hm, hc, hg, rfl⟩
        exact ⟨obst, ⟨hm, hc, hg⟩, rfl⟩
    · cases ((catObstXP game skillLevel masteryLevel t).head?).map (fun p => p.id) with
      | none => simp
      | some x => simp [eq_comm]
  refine ⟨_, optimalObstChoice_getElem? game skillLevel masteryLevel t ht, nodup_newSet _,
    hmem, ?_⟩
  intro hnd obst hobst hcat hneutral hin
  rcases (hmem obst.id).1 hin with ⟨obst', hobst', _, hg, hid⟩ | hbase
  · have : obst' = obst := List.inj_on_of_nodup_map hnd hobst' hobst hid
    subst this
    exact absurd hneutral hg
  · exact hbase

/-- Instance of C4 for tier 1 of `exampleGame` at level 10, a catalog with distinct ids. -/
theorem optimalObstChoice_composition_witness :
    1 ∈ includedCat exampleGame 10 ∧
    (exampleGame.actions.map (fun obst => obst.id)).Nodup ∧
    ∃ choice, (optimalObstChoice exampleGame 10 1)[1]? = some (some choice) ∧
      choice.Nodup ∧
      (∀ id, id ∈ choice ↔
        (∃ obst ∈ exampleGame.actions, obst.category = 1 ∧
          getGlobalModValues exampleGame.isNegative obst.modifiers 1 ≠ none ∧ obst.id = id) ∨
        (optimalObstBase exampleGame 10 1)[1]? = some (some (some id))) ∧
      ((exampleGame.actions.map (fun obst => obst.id)).Nodup →
        ∀ obst ∈ exampleGame.actions, obst.category = 1 →
          getGlobalModValues exampleGame.isNegative obst.modifiers 1 = none →
          obst.id ∈ choice →
          (optimalObstBase exampleGame 10 1)[1]? = some (some (some obst.id))) :=
  ⟨by decide, by decide, optimalObstChoice_composition exampleGame 10 1 1 (by decide)⟩

/-- Index `j` is inside the array built by the writes `arr[c] = f c` exactly when some written
index is at least `j`. -/
theorem foldl_set_length_lt {α : Type} (f : Nat → α) (cats : List Nat) (j : Nat) :
    j < (cats.foldl (fun arr c => SparseArray.set arr c (f c)) ([] : SparseArray α)).length ↔
      ∃ c ∈ cats, j ≤ c := by
  induction cats using List.reverseRecOn with
  | nil => simp
  | append_singleton cs c ih =>
    rw [List.foldl_append]
    simp only [List.foldl_cons, List.foldl_nil, SparseArray.length_set, List.mem_append,
      List.mem_singleton]
    rw [lt_max_iff, ih]
    constructor
    · rintro (⟨c', hc', hle⟩ | h)
      · exact ⟨c', Or.inl hc', hle⟩
      · exact ⟨c, Or.inr rfl, by omega⟩
    · rintro ⟨c', hc' | rfl, hle⟩
      · exact Or.inl ⟨c', hc', hle⟩
      · exact Or.inr (by omega)

/-- Every slot of the array built from `[]` by the writes `arr[c] = f c`: a written index holds
its value, an index below a written one is a hole, any other index is past the end. -/
theorem foldl_set_slot {α : Type} (f : Nat → α) (cats : List Nat) (j : Nat) :
    (cats.foldl (fun arr c => SparseArray.set arr c (f c)) ([] : SparseArray α))[j]? =
      if j ∈ cats then some (some (f j))
      else if cats.any (fun c => decide (j < c)) then some none else none := by
  induction cats using List.reverseRecOn with
  | nil => simp
  | append_singleton cs c ih =>
    have hlen := foldl_set_length_lt f cs j
    rw [List.foldl_append]
    simp only [List.foldl_cons, List.foldl_nil, SparseArray.getElem?_set, List.mem_append,
      List.mem_singleton, List.any_append, List.any_cons, List.any_nil, Bool.or_false,
      Bool.or_eq_true, decide_eq_true_eq]
    by_cases hjc : j = c
    · simp [hjc]
    · simp only [hjc, if_false, or_false]
      by_cases hlt : j < (cs.foldl (fun arr c => SparseArray.set arr c (f c))
          ([] : SparseArray α)).length
      · simp only [hlt, if_true, ih]
        by_cases hmem : j ∈ cs
        · simp [hmem]
        · obtain ⟨c', hc', hle⟩ := hlen.1 hlt
          have hne : j ≠ c' := fun e => hmem (e ▸ hc')
          have hany : cs.any (fun c => decide (j < c)) = true :=
            List.any_eq_true.2 ⟨c', hc', by simp; omega⟩
          simp [hmem, hany]
      · have hall : ∀ c' ∈ cs, c' < j := by
          intro c' hc'
          by_contra hcon
          exact hlt (hlen.2 ⟨c', hc', by omega⟩)
        have hmem : j ∉ cs := fun h => by have := hall j h; omega
        have hany : ¬ cs.any (fun c => decide (j < c)) = true := by
          rw [List.any_eq_true]
          rintro ⟨c', hc', h⟩
          have := hall c' hc'
          simp at h
          omega
        simp [hlt, hmem, hany]

/-- Every slot of `optimalObstBase`: the pick (or `undefined`) of an included tier, a hole for
a tier without obstacle below an included one, nothing past the last included tier. -/
theorem optimalObstBase_slot (game : Game) (skillLevel masteryLevel : Int) (j : Nat) :
    (optimalObstBase game skillLevel masteryLevel)[j]? =
      if j ∈ includedCat game skillLevel then
        some (some (((catObstXP game skillLevel masteryLevel j).head?).map (fun p => p.id)))
      else if (includedCat game skillLevel).any (fun c => decide (j < c)) then some none
      else none := by
  unfold optimalObstBase
  exact foldl_set_slot _ _ j


/-- A slot of `optimalObstChoice` that holds an array is the slot of an included tier. -/
theorem optimalObstChoice_slot_some (game : Game) (skillLevel masteryLevel : Int) (j : Nat)
    (choices : List String)
    (h : (optimalObstChoice game skillLevel masteryLevel)[j]? = some (some choices)) :
    j ∈ includedCat game skillLevel := by
  unfold optimalObstChoice at h
  rw [List.getElem?_mapIdx, optimalObstBase_slot] at h
  by_contra hj
  simp only [hj, if_false] at h
  split_ifs at h <;> simp at h

/-- Every id of a choice set is the id of an obstacle of the catalog, of the tier of the set. -/
theorem optimalObstChoice_ids (game : Game) (skillLevel masteryLevel : Int) (j : Nat)
    (choices : List String)
    (h : (optimalObstChoice game skillLevel masteryLevel)[j]? = some (some choices))
    (id : String) (hid : id ∈ choices) :
    ∃ obst ∈ game.actions, obst.category = j ∧ obst.id = id := by
  have hj := optimalObstChoice_slot_some game skillLevel masteryLevel j choices h
  rw [optimalObstChoice_getElem? game skillLevel masteryLevel j hj] at h
  simp only [Option.some.injEq] at h
  subst h
  rw [mem_newSet, List.mem_append] at hid
  rcases hid with hid | hid
  · simp only [List.mem_map, List.mem_filter, Bool.and_eq_true, decide_eq_true_eq] at hid
    obtain ⟨obst, ⟨hm, hc, _⟩, rfl⟩ := hid
    exact ⟨obst, hm, hc, rfl⟩
  · cases hh : (catObstXP game skillLevel masteryLevel j).head? with
    | none => simp [hh] at hid
    | some p =>
      simp only [hh, Option.map_some', Option.toList_some, List.mem_singleton] at hid
      have hp : p ∈ catObstXP game skillLevel masteryLevel j := List.mem_of_mem_head? hh
      obtain ⟨obst, hm, _, hc, _, rfl⟩ := (mem_catObstXP _ _ _ _ _).1 hp
      exact ⟨obst, hm, hc, by rw [hid]; rfl⟩

/-- A loop that completes has completed its first round. -/
theorem foldlM_cons_ok {α β : Type} (f : β → α → Except JsError β) (b : β) (a : α)
    (l : List α) (b' : β) (h : (a :: l).foldlM f b = Except.ok b') :
    ∃ b1, f b a = Except.ok b1 ∧ l.foldlM f b1 = Except.ok b' := by
  rw [List.foldlM_cons] at h
  cases hf : f b a with
  | error e => rw [hf] at h; cases h
  | ok b1 => rw [hf] at h; exact ⟨b1, rfl, h⟩

/-- Whatever `helper` pushes is `arr` followed by one element of each remaining choice set,
none of them a hole. -/
theorem helper_layouts {α : Type} (args : List (Option (List α))) (arr : List α)
    (r r' : List (List α)) (h : helper args arr r = Except.ok r') :
    ∀ layout ∈ r', layout ∈ r ∨ ∃ l, layout = arr ++ l ∧
      List.Forall₂ (fun x entry => ∃ choices, entry = some choices ∧ x ∈ choices) l args := by
  induction args generalizing arr r r' with
  | nil => simp [helper] at h
  | cons entry rest ih =>
    cases entry with
    | none => simp [helper] at h
    | some choices =>
      rw [helper] at h
      have inner : ∀ (cs : List α) (r r' : List (List α)),
          (∀ c ∈ cs, c ∈ choices) →
          cs.foldlM (fun r c => if rest.isEmpty then pure (r ++ [arr ++ [c]])
            else helper rest (arr ++ [c]) r) r = Except.ok r' →
          ∀ layout ∈ r', layout ∈ r ∨ ∃ l, layout = arr ++ l ∧
            List.Forall₂ (fun x entry => ∃ choices, entry = some choices ∧ x ∈ choices) l
              (some choices :: rest) := by
        intro cs
        induction cs with
        | nil =>
          intro r r' _ hf layout hl
          simp only [List.foldlM_nil, pure, Except.pure, Except.ok.injEq] at hf
          subst hf
          exact Or.inl hl
        | cons c cs ihc =>
          intro r r' hsub hf layout hl
          obtain ⟨r1, hb, hf'⟩ := foldlM_cons_ok _ _ _ _ _ hf
          have hc : c ∈ choices := hsub c (List.mem_cons_self _ _)
          have hsub' : ∀ c' ∈ cs, c' ∈ choices := fun c' h' => hsub c' (List.mem_cons_of_mem _ h')
          rcases ihc _ _ hsub' hf' layout hl with h1 | h1
          · by_cases hrest : rest.isEmpty = true
            · rw [if_pos hrest] at hb
              have hnil : rest = [] := List.isEmpty_iff.1 hrest
              cases hb
              rcases List.mem_append.1 h1 with h2 | h2
              · exact Or.inl h2
              · rw [List.mem_singleton] at h2
                refine Or.inr ⟨[c], h2, ?_⟩
                rw [hnil]
                exact List.Forall₂.cons ⟨choices, rfl, hc⟩ List.Forall₂.nil
            · rw [if_neg hrest] at hb
              rcases ih _ _ _ hb layout h1 with h2 | ⟨l, hl2, hfa⟩
              · exact Or.inl h2
              · refine Or.inr ⟨c :: l, ?_, List.Forall₂.cons ⟨choices, rfl, hc⟩ hfa⟩
                rw [hl2]; simp
          · exact Or.inr h1
      exact inner choices r r' (fun _ h => h) h

/-- Every layout returned by `getArrayCombinations` picks, position by position, an element of
the choice set at that position. -/
theorem getArrayCombinations_layouts {α : Type} (args : List (Option (List α)))
    (r : List (List α)) (h : getArrayCombinations args = Except.ok r) :
    ∀ layout ∈ r,
      List.Forall₂ (fun x entry => ∃ choices, entry = some choices ∧ x ∈ choices) layout args := by
  intro layout hl
  rcases helper_layouts args [] [] r h layout hl with h1 | ⟨l, h2, h3⟩
  · simp at h1
  · simpa [h2] using h3

/-! ### The optimizer loop -/

/-- No number is greater than itself. -/
theorem JsNum.gt_irrefl (a : JsNum) : JsNum.gt a a = false := by
  cases a <;> simp [JsNum.gt, JsNum.lt]

/-- The comparison `>` is transitive. -/
theorem JsNum.gt_trans (a b c : JsNum) (h1 : JsNum.gt c b = true) (h2 : JsNum.gt b a = true) :
    JsNum.gt c a = true := by
  cases a <;> cases b <;> cases c <;> simp [JsNum.gt, JsNum.lt] at h1 h2 ⊢
  exact lt_trans h2 h1

/-- The comparison `>` is asymmetric. -/
theorem JsNum.not_gt_of_gt (a b : JsNum) (h : JsNum.gt b a = true) : JsNum.gt a b = false := by
  cases a <;> cases b <;> simp [JsNum.gt, JsNum.lt] at h ⊢
  exact le_of_lt h

/-- A number below another one is not `>=` it. -/
theorem JsNum.not_ge_of_gt (a b : JsNum) (h : JsNum.gt b a = true) : JsNum.ge a b = false := by
  cases a <;> cases b <;> simp [JsNum.gt, JsNum.lt, JsNum.ge] at h ⊢
  exact h

/-- What does not exceed `r` does not exceed anything above `r`. -/
theorem JsNum.not_gt_of_not_gt_of_gt (a r t : JsNum) (h1 : JsNum.gt a r = false)
    (h2 : JsNum.gt t r = true) : JsNum.gt a t = false := by
  cases a <;> cases r <;> cases t <;> simp [JsNum.gt, JsNum.lt] at h1 h2 ⊢
  exact le_of_lt (lt_of_le_of_lt h1 h2)

/-- What does not exceed `r` is not `>=` anything above `r`. -/
theorem JsNum.not_ge_of_not_gt_of_gt (a r t : JsNum) (h1 : JsNum.gt a r = false)
    (h2 : JsNum.gt t r = true) : JsNum.ge a t = false := by
  cases a <;> cases r <;> cases t <;> simp [JsNum.gt, JsNum.lt, JsNum.ge] at h1 h2 ⊢
  exact lt_of_le_of_lt h1 h2

/-- A rate that does not exceed a number `b` is `NaN` or at most `b`. -/
theorem JsNum.nan_or_ge_of_not_gt (x b r : JsNum) (h1 : JsNum.gt b r = true)
    (h2 : JsNum.gt x b = false) : x = JsNum.nan ∨ JsNum.ge b x = true := by
  cases x <;> cases b <;> cases r <;> simp [JsNum.gt, JsNum.lt, JsNum.ge] at h1 h2 ⊢
  all_goals exact h2


/-- The properties of a course are computed without fault when every id of the course is the
id of an obstacle of the catalog. -/
theorem courseObstProps_ok (game : Game) (masteryLevel : Int) (mods : JsObj String ℚ)
    (course : List String) (h : ∀ id ∈ course, ∃ obst ∈ game.actions, obst.id = id) :
    ∃ props, courseObstProps game masteryLevel mods course = Except.ok props := by
  induction course with
  | nil => exact ⟨[], rfl⟩
  | cons id rest ih =>
    obtain ⟨props, hp⟩ := ih (fun id' h' => h id' (List.mem_cons_of_mem _ h'))
    obtain ⟨obst, hmem, hid⟩ := h id (List.mem_cons_self _ _)
    cases hg : getObjectByID game id with
    | none =>
      unfold getObjectByID at hg
      rw [List.find?_eq_none] at hg
      exact absurd (by simpa using hid) (hg obst hmem)
    | some o =>
      refine ⟨getObstProps game.roundToTickInterval o masteryLevel mods :: props, ?_⟩
      simp [courseObstProps, hg, hp, bind, Except.bind, pure, Except.pure]

/-- When the properties of every course are computed without fault, the last `forEach` is a
plain left fold keeping a course when its rate is strictly greater than `maxXPRate`. -/
theorem foldlM_evaluateCourse (game : Game) (masteryLevel : Int)
    (P : List String → List ObstProps) (cs : List (List String)) (best : Best)
    (h : ∀ c ∈ cs, courseProps game masteryLevel c = Except.ok (P c)) :
    cs.foldlM (evaluateCourse game masteryLevel) best =
      Except.ok (cs.foldl (fun best c =>
        if JsNum.gt (xpRate (P c)) best.maxXPRate = true then
          { optimalCourse := some (P c), maxXPRate := xpRate (P c) }
        else best) best) := by
  induction cs generalizing best with
  | nil => rfl
  | cons c cs ih =>
    have hc := h c (List.mem_cons_self _ _)
    rw [List.foldlM_cons, List.foldl_cons, ← ih _ (fun c' h' => h c' (List.mem_cons_of_mem _ h'))]
    unfold evaluateCourse
    rw [hc]
    by_cases hgt : JsNum.gt (xpRate (P c)) best.maxXPRate = true
    · simp [hgt, bind, Except.bind, pure, Except.pure]
    · simp [hgt, bind, Except.bind, pure, Except.pure]

/-- The left fold of the last `forEach`: either no course exceeds the initial rate and the
state is unchanged, or the state is that of a course `ci` at some index `i` whose rate exceeds
the initial rate, is exceeded by no course, and is not reached by any earlier course. -/
theorem foldl_best (rate : List String → JsNum) (val : List String → List ObstProps)
    (cs : List (List String)) (best : Best) :
    (cs.foldl (fun best c =>
        if JsNum.gt (rate c) best.maxXPRate = true then
          { optimalCourse := some (val c), maxXPRate := rate c }
        else best) best = best ∧ ∀ c ∈ cs, JsNum.gt (rate c) best.maxXPRate = false) ∨
    ∃ (i : Nat) (ci : List String), cs[i]? = some ci ∧
      cs.foldl (fun best c =>
        if JsNum.gt (rate c) best.maxXPRate = true then
          { optimalCourse := some (val c), maxXPRate := rate c }
        else best) best = { optimalCourse := some (val ci), maxXPRate := rate ci } ∧
      JsNum.gt (rate ci) best.maxXPRate = true ∧
      (∀ c ∈ cs, JsNum.gt (rate c) (rate ci) = false) ∧
      ∀ (j : Nat) (cj : List String), j < i → cs[j]? = some cj →
        JsNum.ge (rate cj) (rate ci) = false := by
  induction cs generalizing best with
  | nil => exact Or.inl ⟨rfl, by simp⟩
  | cons c cs ih =>
    rw [List.foldl_cons]
    by_cases hgt : JsNum.gt (rate c) best.maxXPRate = true
    · rw [if_pos hgt]
      rcases ih { optimalCourse := some (val c), maxXPRate := rate c } with ⟨he, hall⟩ |
        ⟨i, ci, hci, he, hgi, hall, hfirst⟩
      · refine Or.inr ⟨0, c, by simp, he, hgt, ?_, ?_⟩
        · intro c' hc'
          rcases List.mem_cons.1 hc' with rfl | h'
          · exact JsNum.gt_irrefl _
          · exact hall c' h'
        · intro j cj hj; omega
      · refine Or.inr ⟨i + 1, ci, by simpa using hci, he, JsNum.gt_trans _ _ _ hgi hgt, ?_, ?_⟩
        · intro c' hc'
          rcases List.mem_cons.1 hc' with rfl | h'
          · exact JsNum.not_gt_of_gt _ _ hgi
          · exact hall c' h'
        · intro j cj hj hcj
          cases j with
          | zero =>
            simp only [List.getElem?_cons_zero, Option.some.injEq] at hcj
            subst hcj
            exact JsNum.not_ge_of_gt _ _ hgi
          | succ j => exact hfirst j cj (by omega) (by simpa using hcj)
    · rw [if_neg hgt]
      have hgt' : JsNum.gt (rate c) best.maxXPRate = false := by simpa using hgt
      rcases ih best with ⟨he, hall⟩ | ⟨i, ci, hci, he, hgi, hall, hfirst⟩
      · refine Or.inl ⟨he, ?_⟩
        intro c' hc'
        rcases List.mem_cons.1 hc' with rfl | h'
        · exact hgt'
        · exact hall c' h'
      · refine Or.inr ⟨i + 1, ci, by simpa using hci, he, hgi, ?_, ?_⟩
        · intro c' hc'
          rcases List.mem_cons.1 hc' with rfl | h'
          · exact JsNum.not_gt_of_not_gt_of_gt _ _ _ hgt' hgi
          · exact hall c' h'
        · intro j cj hj hcj
          cases j with
          | zero =>
            simp only [List.getElem?_cons_zero, Option.some.injEq] at hcj
            subst hcj
            exact JsNum.not_ge_of_not_gt_of_gt _ _ _ hgt' hgi
          | succ j => exact hfirst j cj (by omega) (by simpa using hcj)


/-- Elements related position by position: each element of the first list is related to some
slot of the second. -/
theorem forall₂_getElem? {α β : Type} (R : α → β → Prop) (l : List α) (args : List β)
    (h : List.Forall₂ R l args) : ∀ x ∈ l, ∃ (j : Nat) (e : β), args[j]? = some e ∧ R x e := by
  induction h with
  | nil => simp
  | cons hr _ ih =>
    intro x hx
    rcases List.mem_cons.1 hx with rfl | hx'
    · exact ⟨0, _, by simp, hr⟩
    · obtain ⟨j, e, he, hre⟩ := ih x hx'
      exact ⟨j + 1, e, by simpa using he, hre⟩

/-- The properties of every candidate layout are computed without fault. -/
theorem courseProps_ok (game : Game) (skillLevel masteryLevel : Int)
    (cands : List (List String))
    (hc : getArrayCombinations (optimalObstChoice game skillLevel masteryLevel) = Except.ok cands)
    (c : List String) (hmem : c ∈ cands) :
    ∃ props, courseProps game masteryLevel c = Except.ok props := by
  unfold courseProps
  apply courseObstProps_ok
  intro id hid
  have hfa := getArrayCombinations_layouts _ _ hc c hmem
  obtain ⟨j, e, he, choices, rfl, hin⟩ := forall₂_getElem? _ _ _ hfa id hid
  obtain ⟨obst, hobst, _, hoid⟩ :=
    optimalObstChoice_ids game skillLevel masteryLevel j choices he id hin
  exact ⟨obst, hobst, hoid⟩

/-- C2 (as the code behaves): when at least one candidate layout returned by
`getArrayCombinations(optimalObstChoice)` has a positive rate, `getOptimalCourse` returns the
evaluated actions `props` of a candidate `course` (at index `i` of the enumeration) whose rate
is `>=` the rate of every candidate whose rate is a number (a candidate with total reward and
total time both zero has rate `NaN`, which compares with nothing), and no candidate before
index `i` has a rate `>=` the rate of `props`: among the candidates of maximal rate the
returned one is the first. -/
theorem getOptimalCourse_argmax (game : Game) (skillLevel masteryLevel : Int)
    (cands : List (List String))
    (hc : getArrayCombinations (optimalObstChoice game skillLevel masteryLevel) = Except.ok cands)
    (hpos : ∃ c ∈ cands, ∃ p, courseProps game masteryLevel c = Except.ok p ∧
      JsNum.gt (xpRate p) (JsNum.num 0) = true) :
    ∃ (i : Nat) (course : List String) (props : List ObstProps),
      cands[i]? = some course ∧
      courseProps game masteryLevel course = Except.ok props ∧
      getOptimalCourse game skillLevel masteryLevel = Except.ok (some props) ∧
      (∀ c ∈ cands, ∃ p, courseProps game masteryLevel c = Except.ok p ∧
        (xpRate p = JsNum.nan ∨ JsNum.ge (xpRate props) (xpRate p) = true)) ∧
      (∀ (j : Nat) (cj : List String), j < i → cands[j]? = some cj →
        ∃ p, courseProps game masteryLevel cj = Except.ok p ∧
          JsNum.ge (xpRate p) (xpRate props) = false) := by
  have hP : ∀ c ∈ cands, courseProps game masteryLevel c = Except.ok
      (match courseProps game masteryLevel c with
        | Except.ok p => p
        | Except.error _ => []) := by
    intro c hmem
    obtain ⟨p, hp⟩ := courseProps_ok game skillLevel masteryLevel cands hc c hmem
    rw [hp]
  have hfold := foldlM_evaluateCourse game masteryLevel _ cands
    { optimalCourse := none, maxXPRate := JsNum.num 0 } hP
  rcases foldl_best (fun c => xpRate (match courseProps game masteryLevel c with
        | Except.ok p => p
        | Except.error _ => []))
      (fun c => match courseProps game masteryLevel c with
        | Except.ok p => p
        | Except.error _ => []) cands { optimalCourse := none, maxXPRate := JsNum.num 0 } with
    ⟨_, hall⟩ | ⟨i, ci, hci, he, hgi, hall, hfirst⟩
  · exfalso
    obtain ⟨c, hmem, p, hp, hgt⟩ := hpos
    have := hall c hmem
    simp only [hp] at this
    rw [hgt] at this
    cases this
  · have hmi : ci ∈ cands := List.getElem?_mem hci
    obtain ⟨props, hprops⟩ := courseProps_ok game skillLevel masteryLevel cands hc ci hmi
    simp only [hprops] at he hgi hall hfirst
    refine ⟨i, ci, props, hci, hprops, ?_, ?_, ?_⟩
    · unfold getOptimalCourse
      rw [hc]
      simp only [bind, Except.bind]
      rw [hfold, he]
      rfl
    · intro c hmem
      obtain ⟨p, hp⟩ := courseProps_ok game skillLevel masteryLevel cands hc c hmem
      refine ⟨p, hp, ?_⟩
      have h := hall c hmem
      simp only [hp] at h
      exact JsNum.nan_or_ge_of_not_gt _ _ _ hgi h
    · intro j cj hj hcj
      have hmj : cj ∈ cands := List.getElem?_mem hcj
      obtain ⟨p, hp⟩ := courseProps_ok game skillLevel masteryLevel cands hc cj hmj
      refine ⟨p, hp, ?_⟩
      have h := hfirst j cj hj hcj
      simp only [hp] at h
      exact h

/-- Instance of C2 for `exampleGame` at level 10 and mastery level 1, whose first candidate
has rate `27 / 11`. -/
theorem getOptimalCourse_argmax_witness :
    ∃ (i : Nat) (course : List String) (props : List ObstProps),
      [["neutral0", "modGranter1"], ["neutral0", "neutral1"]][i]? = some course ∧
      courseProps exampleGame 1 course = Except.ok props ∧
      getOptimalCourse exampleGame 10 1 = Except.ok (some props) ∧
      (∀ c ∈ [["neutral0", "modGranter1"], ["neutral0", "neutral1"]],
        ∃ p, courseProps exampleGame 1 c = Except.ok p ∧
          (xpRate p = JsNum.nan ∨ JsNum.ge (xpRate props) (xpRate p) = true)) ∧
      (∀ (j : Nat) (cj : List String), j < i →
        [["neutral0", "modGranter1"], ["neutral0", "neutral1"]][j]? = some cj →
        ∃ p, courseProps exampleGame 1 cj = Except.ok p ∧
          JsNum.ge (xpRate p) (xpRate props) = false) :=
  getOptimalCourse_argmax exampleGame 10 1
    [["neutral0", "modGranter1"], ["neutral0", "neutral1"]] (by decide!)
    ⟨["neutral0", "modGranter1"], by decide,
      [⟨"neutral0", 15, 5000⟩, ⟨"modGranter1", 12, 6000⟩], by decide!, by decide!⟩

/-- C2 (as stated) fails: in `nanRateGame` at level 0 and mastery level 1 the candidates are
`[void0]`, of total reward 0 and total time 0, hence of rate `0 / 0 = NaN`, and `[plain0]`, of
rate 2; a candidate has a positive rate, `getOptimalCourse` returns `[plain0]`, and its rate
is not `>=` the rate of the candidate `[void0]`. -/
theorem argmax_nan_counterexample :
    getArrayCombinations (optimalObstChoice nanRateGame 0 1) =
      Except.ok [["void0"], ["plain0"]] ∧
    courseProps nanRateGame 1 ["plain0"] = Except.ok [⟨"plain0", 10, 5000⟩] ∧
    JsNum.gt (xpRate [⟨"plain0", 10, 5000⟩]) (JsNum.num 0) = true ∧
    getOptimalCourse nanRateGame 0 1 = Except.ok (some [⟨"plain0", 10, 5000⟩]) ∧
    courseProps nanRateGame 1 ["void0"] = Except.ok [⟨"void0", 0, 0⟩] ∧
    xpRate [⟨"void0", 0, 0⟩] = JsNum.nan ∧
    JsNum.ge (xpRate [⟨"plain0", 10, 5000⟩]) (xpRate [⟨"void0", 0, 0⟩]) = false := by
  refine ⟨by decide!, by decide!, by decide!, by decide!, by decide!, by decide!, by decide!⟩

/-! ### Scope matching and malformed declarations -/

/-- The `reduce` of `getModValue` over the entries adds up the magnitudes of the entries whose
scope is `sid`. -/
theorem scopeFold_eq_sum (entries : List (String × ℚ)) (sid : String) (init : ℚ) :
    entries.foldl (fun pv cv => pv + (if cv.1 = sid then cv.2 else 0)) init =
      init + ((entries.filter (fun e => decide (e.1 = sid))).map (fun e => e.2)).sum := by
  induction entries generalizing init with
  | nil => simp
  | cons e es ih =>
    rw [List.foldl_cons, ih]
    by_cases h : e.1 = sid
    · simp [List.filter_cons, h, add_assoc]
    · simp [List.filter_cons, h]

/-- C11: when the declaration holds a list of (scope, magnitude) entries under a name,
`getModValue` called with a `skillID` returns `undefined` when the sum of the magnitudes of
the entries whose scope id equals `skillID` is zero (in particular when no entry matches), and
otherwise that sum times the dampening multiplier; a declaration with the same entries of
that scope gives the same result, whatever its entries of other scopes. -/
theorem getModValue_scoped (isNegative : String → Bool) (fields : JsObj String ModValue)
    (modName sid : String) (entries : List (String × ℚ)) (m : Int)
    (h : JsObj.get fields modName = some (ModValue.scoped entries)) :
    getModValue isNegative (some (ModObj.plain fields)) modName (some sid) m =
      (let total := ((entries.filter (fun e => decide (e.1 = sid))).map (fun e => e.2)).sum
       let mult : ℚ := if isNegative modName = true ∧ 99 ≤ m then 1 / 2 else 1
       if total = 0 then none else some (total * mult)) ∧
    ∀ (fields' : JsObj String ModValue) (entries' : List (String × ℚ)),
      JsObj.get fields' modName = some (ModValue.scoped entries') →
      entries'.filter (fun e => decide (e.1 = sid)) = entries.filter (fun e => decide (e.1 = sid)) →
      getModValue isNegative (some (ModObj.plain fields')) modName (some sid) m =
        getModValue isNegative (some (ModObj.plain fields)) modName (some sid) m := by
  have key : ∀ (fields : JsObj String ModValue) (entries : List (String × ℚ)),
      JsObj.get fields modName = some (ModValue.scoped entries) →
      getModValue isNegative (some (ModObj.plain fields)) modName (some sid) m =
        (let total := ((entries.filter (fun e => decide (e.1 = sid))).map (fun e => e.2)).sum
         let mult : ℚ := if isNegative modName = true ∧ 99 ≤ m then 1 / 2 else 1
         if total = 0 then none else some (total * mult)) := by
    intro fields entries h
    unfold getModValue
    simp only [h, scopeFold_eq_sum, zero_add, Bool.and_eq_true, decide_eq_true_eq, ge_iff_le]
  refine ⟨key fields entries h, ?_⟩
  intro fields' entries' h' hf
  rw [key fields entries h, key fields' entries' h', hf]


/-- Instance of C11: two entries, one of the scope `melvorD:Agility`. -/
theorem getModValue_scoped_witness :
    getModValue (fun _ => false)
        (some (ModObj.plain [("increasedSkillXP",
          ModValue.scoped [("melvorD:Agility", 5), ("melvorD:Mining", 7)])]))
        "increasedSkillXP" (some "melvorD:Agility") 50 =
      (let total := (([("melvorD:Agility", (5 : ℚ)), ("melvorD:Mining", 7)].filter
          (fun e => decide (e.1 = "melvorD:Agility"))).map (fun e => e.2)).sum
       let mult : ℚ := if (fun _ => false) "increasedSkillXP" = true ∧ (99 : Int) ≤ 50
         then 1 / 2 else 1
       if total = 0 then none else some (total * mult)) ∧
    ∀ (fields' : JsObj String ModValue) (entries' : List (String × ℚ)),
      JsObj.get fields' "increasedSkillXP" = some (ModValue.scoped entries') →
      entries'.filter (fun e => decide (e.1 = "melvorD:Agility")) =
        [("melvorD:Agility", (5 : ℚ)), ("melvorD:Mining", 7)].filter
          (fun e => decide (e.1 = "melvorD:Agility")) →
      getModValue (fun _ => false) (some (ModObj.plain fields')) "increasedSkillXP"
          (some "melvorD:Agility") 50 =
        getModValue (fun _ => false)
          (some (ModObj.plain [("increasedSkillXP",
            ModValue.scoped [("melvorD:Agility", 5), ("melvorD:Mining", 7)])]))
          "increasedSkillXP" (some "melvorD:Agility") 50 :=
  getModValue_scoped (fun _ => false)
    [("increasedSkillXP", ModValue.scoped [("melvorD:Agility", 5), ("melvorD:Mining", 7)])]
    "increasedSkillXP" "melvorD:Agility" [("melvorD:Agility", 5), ("melvorD:Mining", 7)] 50
    (by decide!)

/-- The result of `getGlobalModValues` depends on the declaration only through the values
`getModValue(...) || 0` of the names of `globalMods`. -/
theorem getGlobalModValues_congr (isNegative : String → Bool) (a b : Option ModObj) (m : Int)
    (h : ∀ gm ∈ globalMods,
      orZero (getModValue isNegative a gm.name gm.skillID m) =
        orZero (getModValue isNegative b gm.name gm.skillID m)) :
    getGlobalModValues isNegative a m = getGlobalModValues isNegative b m := by
  unfold getGlobalModValues
  rw [modGroups_eq]
  have ha := groupFold_eq (fun name scope => orZero (getModValue isNegative a name scope m))
  have hb := groupFold_eq (fun name scope => orZero (getModValue isNegative b name scope m))
  simp only [] at ha hb ⊢
  rw [ha, hb]
  have h1 := h ⟨"increasedSkillIntervalPercent", some "melvorD:Agility", "intervalPct", 1⟩
    (by decide)
  have h2 := h ⟨"decreasedSkillIntervalPercent", some "melvorD:Agility", "intervalPct", -1⟩
    (by decide)
  have h3 := h ⟨"increasedSkillInterval", some "melvorD:Agility", "interval", 1⟩ (by decide)
  have h4 := h ⟨"decreasedSkillInterval", some "melvorD:Agility", "interval", -1⟩ (by decide)
  have h5 := h ⟨"increasedSkillXP", some "melvorD:Agility", "skillXP", 1⟩ (by decide)
  have h6 := h ⟨"decreasedSkillXP", some "melvorD:Agility", "skillXP", -1⟩ (by decide)
  have h7 := h ⟨"increasedGlobalSkillXP", none, "skillXP", 1⟩ (by decide)
  have h8 := h ⟨"decreasedGlobalSkillXP", none, "skillXP", -1⟩ (by decide)
  simp only [] at h1 h2 h3 h4 h5 h6 h7 h8
  rw [h1, h2, h3, h4, h5, h6, h7, h8]

/-- On a plain object `getModValue` depends only on the property read under the name. -/
theorem getModValue_congr_get (isNegative : String → Bool) (f f' : JsObj String ModValue)
    (modName : String) (skillID : Option String) (m : Int)
    (h : JsObj.get f modName = JsObj.get f' modName) :
    getModValue isNegative (some (ModObj.plain f)) modName skillID m =
      getModValue isNegative (some (ModObj.plain f')) modName skillID m := by
  unfold getModValue
  simp only [h]

/-- Reading an object from which the properties of name `n` have been removed. -/
theorem JsObj.get_filter_ne {β : Type} (obj : JsObj String β) (n k : String) :
    JsObj.get (obj.filter (fun e => !decide (e.1 = n))) k =
      if k = n then none else JsObj.get obj k := by
  induction obj with
  | nil => simp [JsObj.get]
  | cons e rest ih =>
    obtain ⟨k0, v0⟩ := e
    by_cases h0 : k0 = n
    · subst h0
      by_cases hk : k = k0
      · subst hk
        simp [List.filter_cons, JsObj.get, ih]
      · have hk' : ¬ k0 = k := fun e => hk e.symm
        simp [List.filter_cons, JsObj.get, ih, hk, hk']
    · by_cases hk : k0 = k
      · subst hk
        simp [List.filter_cons, JsObj.get, h0]
      · simp [List.filter_cons, JsObj.get, h0, hk, ih]

/-- Each name occurs once in `globalMods`. -/
theorem globalMods_name_unique :
    ∀ a ∈ globalMods, ∀ b ∈ globalMods, a.name = b.name → a = b := by decide

/-- Malformed declarations other than `null`: `getModValue` returns `undefined` when the
declaration is absent, is a value other than `null` that is not a plain object, lacks the name,
holds a scalar under a name queried with a `skillID`, or holds a list under a name queried
without one; `getGlobalModValues` returns `undefined` for such an absent or non-plain
declaration, and a name of `globalMods` for which `getModValue` is `undefined` adds `0` to its
group sum: the result is the one of the declaration without that name. -/
theorem getModValue_malformed (isNegative : String → Bool) (m : Int) :
    (∀ modName skillID, getModValue isNegative none modName skillID m = none) ∧
    (∀ modName skillID, getModValue isNegative (some ModObj.other) modName skillID m = none) ∧
    (∀ fields modName skillID, JsObj.get fields modName = none →
      getModValue isNegative (some (ModObj.plain fields)) modName skillID m = none) ∧
    (∀ fields modName sid v, JsObj.get fields modName = some (ModValue.scalar v) →
      getModValue isNegative (some (ModObj.plain fields)) modName (some sid) m = none) ∧
    (∀ fields modName entries, JsObj.get fields modName = some (ModValue.scoped entries) →
      getModValue isNegative (some (ModObj.plain fields)) modName none m = none) ∧
    getGlobalModValues isNegative none m = none ∧
    getGlobalModValues isNegative (some ModObj.other) m = none ∧
    (∀ fields, ∀ gm ∈ globalMods,
      getModValue isNegative (some (ModObj.plain fields)) gm.name gm.skillID m = none →
      orZero (getModValue isNegative (some (ModObj.plain fields)) gm.name gm.skillID m)
          * ((Int.sign gm.sign : Int) : ℚ) = 0 ∧
      getGlobalModValues isNegative (some (ModObj.plain fields)) m =
        getGlobalModValues isNegative
          (some (ModObj.plain (fields.filter (fun e => !decide (e.1 = gm.name))))) m) := by
  refine ⟨fun _ _ => rfl, fun _ _ => rfl, ?_, ?_, ?_, getGlobalModValues_undefined _ _, ?_, ?_⟩
  · intro fields modName skillID h
    simp [getModValue, h]
  · intro fields modName sid v h
    simp [getModValue, h]
  · intro fields modName entries h
    simp [getModValue, h]
  · rw [← getGlobalModValues_undefined isNegative m]
    exact getGlobalModValues_congr _ _ _ _ (fun _ _ => rfl)
  · intro fields gm hgm hnone
    refine ⟨by simp [hnone, orZero], ?_⟩
    apply getGlobalModValues_congr
    intro gm' hgm'
    by_cases hn : gm'.name = gm.name
    · have heq : gm' = gm := globalMods_name_unique gm' hgm' gm hgm hn
      subst heq
      rw [hnone]
      have : getModValue isNegative
          (some (ModObj.plain (fields.filter (fun e => !decide (e.1 = gm'.name)))))
          gm'.name gm'.skillID m = none := by
        simp [getModValue, JsObj.get_filter_ne]
      rw [this]
    · rw [getModValue_congr_get]
      rw [JsObj.get_filter_ne, if_neg hn]

/-- Instance of `getModValue_malformed`: a scalar under `increasedSkillXP`, a name queried
with a `skillID`, contributes nothing and the aggregation is `undefined`. -/
theorem getModValue_malformed_witness :
    getModValue (fun _ => false)
        (some (ModObj.plain [("increasedSkillXP", ModValue.scalar 5)]))
        "increasedSkillXP" (some "melvorD:Agility") 50 = none ∧
    getGlobalModValues (fun _ => false)
        (some (ModObj.plain [("increasedSkillXP", ModValue.scalar 5)])) 50 =
      getGlobalModValues (fun _ => false)
        (some (ModObj.plain ([("increasedSkillXP", ModValue.scalar 5)].filter
          (fun e => !decide (e.1 = "increasedSkillXP"))))) 50 :=
  ⟨(getModValue_malformed (fun _ => false) 50).2.2.2.1
      [("increasedSkillXP", ModValue.scalar 5)] "increasedSkillXP" "melvorD:Agility" 5
      (by decide!),
   ((getModValue_malformed (fun _ => false) 50).2.2.2.2.2.2.2
      [("increasedSkillXP", ModValue.scalar 5)]
      ⟨"increasedSkillXP", some "melvorD:Agility", "skillXP", 1⟩ (by decide) (by decide!)).2⟩

/-- A loop whose body never throws returns the result of the loop of the bodies' values. -/
theorem foldlM_ok_eq_foldl {α β : Type} (f : β → α → Except JsError β) (g : β → α → β)
    (h : ∀ b a, f b a = Except.ok (g b a)) (l : List α) (b : β) :
    l.foldlM f b = Except.ok (l.foldl g b) := by
  induction l generalizing b with
  | nil => rfl
  | cons a l ih =>
    rw [List.foldlM_cons, h, List.foldl_cons]
    exact ih (g b a)

/-- On an argument that is not `null`, `getModValueOf` returns the value of `getModValue`. -/
theorem getModValueOf_notNull (isNegative : String → Bool) (modObj : Option ModObj)
    (modName : String) (skillID : Option String) (m : Int) :
    getModValueOf isNegative (ModArg.notNull modObj) modName skillID m =
      Except.ok (getModValue isNegative modObj modName skillID m) := rfl

/-- On an argument that is not `null`, `getGlobalModValuesOf` returns the value of
`getGlobalModValues`. -/
theorem getGlobalModValuesOf_notNull (isNegative : String → Bool) (modObj : Option ModObj)
    (m : Int) :
    getGlobalModValuesOf isNegative (ModArg.notNull modObj) m =
      Except.ok (getGlobalModValues isNegative modObj m) := by
  unfold getGlobalModValuesOf getGlobalModValues
  have hinner : ∀ (modGroup : String),
      (globalMods.filter (fun gm => gm.group = modGroup)).foldlM
        (fun (pv : ℚ) gm => do
          let modValue ← getModValueOf isNegative (ModArg.notNull modObj) gm.name gm.skillID m
          pure (pv + orZero modValue * ((Int.sign gm.sign : Int) : ℚ))) 0 =
      Except.ok ((globalMods.filter (fun gm => gm.group = modGroup)).foldl
        (fun pv gm =>
          pv + orZero (getModValue isNegative modObj gm.name gm.skillID m)
            * ((Int.sign gm.sign : Int) : ℚ)) 0) :=
    fun modGroup => foldlM_ok_eq_foldl _ _ (fun _ _ => rfl) _ _
  rw [modGroups_eq]
  simp only [List.foldlM_cons, List.foldlM_nil, hinner, List.foldl_cons, List.foldl_nil]
  rfl

/-- C17 (code at the failing input): at `null`, a declaration that is not a plain object, for
every modifier name, scope and mastery level, `getModValue(null, modName, skillID, masteryLevel)` throws a
`TypeError` instead of returning `undefined`, and so does `getGlobalModValues(null,
masteryLevel)`, whose first call of `getModValue` throws. -/
theorem getModValue_null_throws (isNegative : String → Bool) (modName : String)
    (skillID : Option String) (m : Int) :
    getModValueOf isNegative ModArg.null modName skillID m = Except.error JsError.typeError ∧
    getGlobalModValuesOf isNegative ModArg.null m = Except.error JsError.typeError :=
  ⟨rfl, rfl⟩

/-! ### Combining modifiers -/

/-- A key reads as `undefined` exactly when the object does not have it. -/
theorem JsObj.get_eq_none_iff {β : Type} (obj : JsObj String β) (k : String) :
    JsObj.get obj k = none ↔ k ∉ obj.map Prod.fst := by
  induction obj with
  | nil => simp [JsObj.get]
  | cons e rest ih =>
    obtain ⟨k0, v0⟩ := e
    by_cases h : k0 = k
    · simp [JsObj.get, h]
    · have h' : ¬ k = k0 := fun e => h e.symm
      simp [JsObj.get, h, h', ih]

/-- Keys of an object after a write: a new key comes last. -/
theorem JsObj.keys_set {β : Type} (obj : JsObj String β) (k : String) (v : β) :
    (JsObj.set obj k v).map Prod.fst =
      if k ∈ obj.map Prod.fst then obj.map Prod.fst else obj.map Prod.fst ++ [k] := by
  induction obj with
  | nil => simp [JsObj.set]
  | cons e rest ih =>
    obtain ⟨k0, v0⟩ := e
    by_cases h : k0 = k
    · simp [JsObj.set, h]
    · have h' : ¬ k = k0 := fun e => h e.symm
      simp only [JsObj.set, h, if_false, List.map_cons, ih, List.mem_cons, h', false_or]
      split_ifs <;> simp

/-- A write keeps the keys of an object distinct. -/
theorem JsObj.nodup_keys_set {β : Type} (obj : JsObj String β) (k : String) (v : β)
    (h : (obj.map Prod.fst).Nodup) : ((JsObj.set obj k v).map Prod.fst).Nodup := by
  rw [JsObj.keys_set]
  split_ifs with hk
  · exact h
  · rw [List.nodup_append]
    refine ⟨h, List.nodup_singleton k, ?_⟩
    intro a ha hb
    rw [List.mem_singleton] at hb
    subst hb
    exact hk ha

/-- One round of the inner loop of `combineModValues`, read at key `k'`: the value at the
written key becomes `add` of the value it had, a missing value counting as `0`, and `v`. -/
theorem combineStep_get (add : ℚ → ℚ → ℚ) (mv : JsObj String ℚ) (k k' : String) (v : ℚ) :
    JsObj.get (JsObj.set (if JsObj.get mv k = none then JsObj.set mv k 0 else mv) k
        (add (orZero (JsObj.get (if JsObj.get mv k = none then JsObj.set mv k 0 else mv) k))
          v)) k' =
      if k' = k then some (add ((JsObj.get mv k).getD 0) v) else JsObj.get mv k' := by
  rw [JsObj.keyGet_set]
  by_cases hk : k' = k
  · simp only [hk, if_true]
    cases hg : JsObj.get mv k with
    | none => simp [JsObj.keyGet_set, orZero]
    | some x => simp [hg, orZero]
  · simp only [hk, if_false]
    cases hg : JsObj.get mv k with
    | none => simp [JsObj.keyGet_set, hk]
    | some x => simp

/-- Keys after one round of the inner loop of `combineModValues`. -/
theorem combineStep_keys (add : ℚ → ℚ → ℚ) (mv : JsObj String ℚ) (k : String) (v : ℚ) :
    (JsObj.set (if JsObj.get mv k = none then JsObj.set mv k 0 else mv) k
        (add (orZero (JsObj.get (if JsObj.get mv k = none then JsObj.set mv k 0 else mv) k))
          v)).map Prod.fst =
      if k ∈ mv.map Prod.fst then mv.map Prod.fst else mv.map Prod.fst ++ [k] := by
  rw [JsObj.keys_set]
  cases hg : JsObj.get mv k with
  | none =>
    have hk : k ∉ mv.map Prod.fst := (JsObj.get_eq_none_iff mv k).1 hg
    simp [JsObj.keys_set, hk]
  | some x =>
    have hk : k ∈ mv.map Prod.fst := by
      by_contra hcon
      rw [(JsObj.get_eq_none_iff mv k).2 hcon] at hg
      cases hg
    simp [hk]

/-- The inner loop of `combineModValues` over one object with distinct keys, read at key `k'`. -/
theorem combineObj_get (add : ℚ → ℚ → ℚ) (obj : JsObj String ℚ)
    (hnd : (obj.map Prod.fst).Nodup) (mv : JsObj String ℚ) (k' : String) :
    JsObj.get (obj.foldl (fun modValues entry =>
        JsObj.set (if JsObj.get modValues entry.1 = none then JsObj.set modValues entry.1 0
            else modValues) entry.1
          (add (orZero (JsObj.get (if JsObj.get modValues entry.1 = none
            then JsObj.set modValues entry.1 0 else modValues) entry.1)) entry.2)) mv) k' =
      match JsObj.get obj k' with
      | none => JsObj.get mv k'
      | some v => some (add ((JsObj.get mv k').getD 0) v) := by
  induction obj generalizing mv with
  | nil => simp [JsObj.get]
  | cons e rest ih =>
    obtain ⟨k, v⟩ := e
    simp only [List.map_cons, List.nodup_cons] at hnd
    rw [List.foldl_cons, ih hnd.2, combineStep_get]
    by_cases hk : k' = k
    · subst hk
      have hrest : JsObj.get rest k' = none := (JsObj.get_eq_none_iff rest k').2 hnd.1
      simp [JsObj.get, hrest]
    · have hk' : ¬ k = k' := fun e => hk e.symm
      simp only [JsObj.get, hk, hk', if_false]

/-- The inner loop of `combineModValues` keeps the keys distinct. -/
theorem combineObj_keys (add : ℚ → ℚ → ℚ) (obj : JsObj String ℚ) (mv : JsObj String ℚ)
    (hmv : (mv.map Prod.fst).Nodup) :
    ((obj.foldl (fun modValues entry =>
        JsObj.set (if JsObj.get modValues entry.1 = none then JsObj.set modValues entry.1 0
            else modValues) entry.1
          (add (orZero (JsObj.get (if JsObj.get modValues entry.1 = none
            then JsObj.set modValues entry.1 0 else modValues) entry.1)) entry.2)) mv).map
        Prod.fst).Nodup := by
  induction obj generalizing mv with
  | nil => simpa using hmv
  | cons e rest ih =>
    rw [List.foldl_cons]
    apply ih
    rw [combineStep_keys]
    split_ifs with hk
    · exact hmv
    · rw [List.nodup_append]
      refine ⟨hmv, List.nodup_singleton _, ?_⟩
      intro a ha hb
      rw [List.mem_singleton] at hb
      subst hb
      exact hk ha

/-- The outer loop of `combineModValues` over objects with distinct keys, read at key `k'`:
the values at `k'` of the objects that have the key are added, in the order of the objects,
to the value the key had. -/
theorem combineFold_get (add : ℚ → ℚ → ℚ) (objs : List (JsObj String ℚ))
    (hnd : ∀ obj ∈ objs, (obj.map Prod.fst).Nodup) (mv : JsObj String ℚ) (k' : String) :
    JsObj.get (objs.foldl (fun modValues modValueObj =>
        modValueObj.foldl (fun modValues entry =>
          JsObj.set (if JsObj.get modValues entry.1 = none then JsObj.set modValues entry.1 0
              else modValues) entry.1
            (add (orZero (JsObj.get (if JsObj.get modValues entry.1 = none
              then JsObj.set modValues entry.1 0 else modValues) entry.1)) entry.2))
          modValues) mv) k' =
      if objs.filterMap (fun obj => JsObj.get obj k') = [] then JsObj.get mv k'
      else some ((objs.filterMap (fun obj => JsObj.get obj k')).foldl add
        ((JsObj.get mv k').getD 0)) := by
  induction objs generalizing mv with
  | nil => simp
  | cons obj rest ih =>
    rw [List.foldl_cons, ih (fun o ho => hnd o (List.mem_cons_of_mem _ ho)),
      combineObj_get add obj (hnd obj (List.mem_cons_self _ _))]
    cases hg : JsObj.get obj k' with
    | none => simp [List.filterMap_cons, hg]
    | some v =>
      by_cases hall : rest.filterMap (fun obj => JsObj.get obj k') = []
      · simp [List.filterMap_cons, hg, hall]
      · simp [List.filterMap_cons, hg, hall]

/-- The outer loop of `combineModValues` keeps the keys distinct. -/
theorem combineFold_keys (add : ℚ → ℚ → ℚ) (objs : List (JsObj String ℚ))
    (mv : JsObj String ℚ) (hmv : (mv.map Prod.fst).Nodup) :
    ((objs.foldl (fun modValues modValueObj =>
        modValueObj.foldl (fun modValues entry =>
          JsObj.set (if JsObj.get modValues entry.1 = none then JsObj.set modValues entry.1 0
              else modValues) entry.1
            (add (orZero (JsObj.get (if JsObj.get modValues entry.1 = none
              then JsObj.set modValues entry.1 0 else modValues) entry.1)) entry.2))
          modValues) mv).map Prod.fst).Nodup := by
  induction objs generalizing mv with
  | nil => simpa using hmv
  | cons obj rest ih =>
    rw [List.foldl_cons]
    exact ih _ (combineObj_keys add obj mv hmv)

/-- The value of `combineModValues` at a key: `undefined` when no defined entry has the key,
otherwise the values at that key of the defined entries that have it, added from `0` in the
order of the list. -/
theorem combineModValues_get (add : ℚ → ℚ → ℚ) (arr : List (Option (JsObj String ℚ)))
    (hk : ∀ obj, some obj ∈ arr → (obj.map Prod.fst).Nodup) (k : String) :
    JsObj.get (combineModValues add arr) k =
      if (arr.filterMap id).filterMap (fun obj => JsObj.get obj k) = [] then none
      else some (((arr.filterMap id).filterMap (fun obj => JsObj.get obj k)).foldl add 0) := by
  have h := combineFold_get add (arr.filterMap id)
    (fun obj ho => hk obj (by simpa using ho)) [] k
  unfold combineModValues
  simp only [] at h ⊢
  rw [h]
  rfl

/-- The values at a key of the defined entries are none exactly when no defined entry has the
key. -/
theorem combineVals_eq_nil_iff (arr : List (Option (JsObj String ℚ))) (k : String) :
    (arr.filterMap id).filterMap (fun obj => JsObj.get obj k) = [] ↔
      ∀ obj, some obj ∈ arr → k ∉ obj.map Prod.fst := by
  rw [List.filterMap_eq_nil_iff]
  constructor
  · intro h obj ho
    rw [← JsObj.get_eq_none_iff]
    exact h obj (by simpa using ho)
  · intro h obj ho
    rw [JsObj.get_eq_none_iff]
    exact h obj (by simpa using ho)

/-- C12 (as the code behaves): for a list of aggregation results, each a mapping (an object,
whose keys are distinct and are names of modifier groups) or `undefined`, and for the addition `add` of the
numbers the method runs on, `combineModValues` returns a mapping with distinct keys, whose key
set is the union of the key sets of the defined entries and whose value at each key is the sum
accumulated from `0`, in the order of the list, of the values at that key of the defined
entries that have the key; an `undefined` entry and an entry without the key add nothing. -/
theorem combineModValues_combine (add : ℚ → ℚ → ℚ) (arr : List (Option (JsObj String ℚ)))
    (hk : ∀ obj, some obj ∈ arr → (obj.map Prod.fst).Nodup)
    (_hgroup : ∀ obj, some obj ∈ arr →
      ∀ k ∈ obj.map Prod.fst, k ∈ globalMods.map (fun gm => gm.group)) :
    ((combineModValues add arr).map Prod.fst).Nodup ∧
    (∀ k, k ∈ (combineModValues add arr).map Prod.fst ↔
      ∃ obj, some obj ∈ arr ∧ k ∈ obj.map Prod.fst) ∧
    (∀ k, k ∈ (combineModValues add arr).map Prod.fst →
      JsObj.get (combineModValues add arr) k =
        some (((arr.filterMap id).filterMap (fun obj => JsObj.get obj k)).foldl add 0)) := by
  have hmem : ∀ k, k ∈ (combineModValues add arr).map Prod.fst ↔
      ∃ obj, some obj ∈ arr ∧ k ∈ obj.map Prod.fst := by
    intro k
    have hget := combineModValues_get add arr hk k
    constructor
    · intro hin
      by_contra hcon
      have hnil := (combineVals_eq_nil_iff arr k).2
        (fun obj ho hkin => hcon ⟨obj, ho, hkin⟩)
      rw [if_pos hnil, JsObj.get_eq_none_iff] at hget
      exact hget hin
    · rintro ⟨obj, ho, hkin⟩
      by_contra hcon
      have hnil : ¬ (arr.filterMap id).filterMap (fun obj => JsObj.get obj k) = [] :=
        fun h => (combineVals_eq_nil_iff arr k).1 h obj ho hkin
      rw [if_neg hnil, (JsObj.get_eq_none_iff _ k).2 hcon] at hget
      cases hget
  refine ⟨?_, hmem, ?_⟩
  · unfold combineModValues
    exact combineFold_keys add _ [] (by simp)
  · intro k hin
    obtain ⟨obj, ho, hkin⟩ := (hmem k).1 hin
    have hnil : ¬ (arr.filterMap id).filterMap (fun obj => JsObj.get obj k) = [] :=
      fun h => (combineVals_eq_nil_iff arr k).1 h obj ho hkin
    rw [combineModValues_get add arr hk k, if_neg hnil]

/-- Instance of C12 on the list `[{skillXP: 50}, undefined, {skillXP: 10, interval: -200}]`
with the addition of doubles. -/
theorem combineModValues_combine_witness :
    ((combineModValues doubleAdd
        [some [("skillXP", 50)], none, some [("skillXP", 10), ("interval", -200)]]).map
        Prod.fst).Nodup ∧
    (∀ k, k ∈ (combineModValues doubleAdd
        [some [("skillXP", 50)], none, some [("skillXP", 10), ("interval", -200)]]).map Prod.fst ↔
      ∃ obj, some obj ∈ [some [("skillXP", (50 : ℚ))], none,
        some [("skillXP", 10), ("interval", -200)]] ∧ k ∈ obj.map Prod.fst) ∧
    (∀ k, k ∈ (combineModValues doubleAdd
        [some [("skillXP", 50)], none, some [("skillXP", 10), ("interval", -200)]]).map Prod.fst →
      JsObj.get (combineModValues doubleAdd
          [some [("skillXP", 50)], none, some [("skillXP", 10), ("interval", -200)]]) k =
        some ((([some [("skillXP", (50 : ℚ))], none,
          some [("skillXP", 10), ("interval", -200)]].filterMap id).filterMap
            (fun obj => JsObj.get obj k)).foldl doubleAdd 0)) :=
  combineModValues_combine doubleAdd
    [some [("skillXP", 50)], none, some [("skillXP", 10), ("interval", -200)]]
    (by
      intro obj h
      simp only [List.mem_cons, Option.some.injEq, List.mem_singleton, List.not_mem_nil,
        or_false] at h
      rcases h with rfl | h | rfl
      · decide
      · cases h
      · decide)
    (by
      intro obj h
      simp only [List.mem_cons, Option.some.injEq, List.mem_singleton, List.not_mem_nil,
        or_false] at h
      rcases h with rfl | h | rfl
      · decide
      · cases h
      · decide)

/-- C12 (as stated) fails on doubles: the entries `{skillXP: 0.1}`, `{skillXP: 0.2}`,
`{skillXP: 0.3}` combine to `skillXP: 0.6000000000000001` (`5404319552844596 / 2 ^ 53`), and
the same entries in the reverse order to `skillXP: 0.6` (`5404319552844595 / 2 ^ 53`): the
result depends on the order of the list. -/
theorem combine_order_counterexample :
    ([some [("skillXP", roundDouble (3 / 10))], some [("skillXP", roundDouble (2 / 10))],
        some [("skillXP", roundDouble (1 / 10))]] : List (Option (JsObj String ℚ))).Perm
      [some [("skillXP", roundDouble (1 / 10))], some [("skillXP", roundDouble (2 / 10))],
        some [("skillXP", roundDouble (3 / 10))]] ∧
    combineModValues doubleAdd
      [some [("skillXP", roundDouble (1 / 10))], some [("skillXP", roundDouble (2 / 10))],
        some [("skillXP", roundDouble (3 / 10))]] =
      [("skillXP", 5404319552844596 / 9007199254740992)] ∧
    combineModValues doubleAdd
      [some [("skillXP", roundDouble (3 / 10))], some [("skillXP", roundDouble (2 / 10))],
        some [("skillXP", roundDouble (1 / 10))]] =
      [("skillXP", 5404319552844595 / 9007199254740992)] ∧
    JsObj.get (combineModValues doubleAdd
      [some [("skillXP", roundDouble (3 / 10))], some [("skillXP", roundDouble (2 / 10))],
        some [("skillXP", roundDouble (1 / 10))]]) "skillXP" ≠
    JsObj.get (combineModValues doubleAdd
      [some [("skillXP", roundDouble (1 / 10))], some [("skillXP", roundDouble (2 / 10))],
        some [("skillXP", roundDouble (3 / 10))]]) "skillXP" := by
  refine ⟨?_, by decide!, by decide!, by decide!⟩
  exact List.reverse_perm
    [some [("skillXP", roundDouble (1 / 10))], some [("skillXP", roundDouble (2 / 10))],
      some [("skillXP", roundDouble (3 / 10))]]

/-! ### Tier inclusion -/

/-- In a strictly increasing list the values not above `L` are a prefix: there are more than
`c` of them exactly when the value at index `c` exists and is not above `L`. -/
theorem filter_le_length_of_sorted (l : List Int) (hs : l.Pairwise (fun a b => a < b)) (L : Int)
    (c : Nat) :
    c < (l.filter (fun level => decide (level ≤ L))).length ↔
      ∃ lvl, l[c]? = some lvl ∧ lvl ≤ L := by
  induction l generalizing c with
  | nil => simp
  | cons a t ih =>
    rw [List.pairwise_cons] at hs
    by_cases ha : a ≤ L
    · cases c with
      | zero => simp [List.filter_cons, ha]
      | succ c => simp [List.filter_cons, ha, ih hs.2]
    · have hnil : t.filter (fun level => decide (level ≤ L)) = [] := by
        rw [List.filter_eq_nil_iff]
        intro b hb
        have := hs.1 b hb
        simp only [decide_eq_true_eq]
        omega
      cases c with
      | zero => simp [List.filter_cons, ha, hnil]
      | succ c =>
        simp only [List.filter_cons, ha, decide_False, hnil, List.length_nil,
          List.getElem?_cons_succ, Bool.false_eq_true, if_false]
        constructor
        · intro h; omega
        · rintro ⟨lvl, hl, hle⟩
          have := hs.1 lvl (List.getElem?_mem hl)
          omega

/-- The unlock table is strictly increasing. -/
theorem obstacleUnlockLevels_sorted : obstacleUnlockLevels.Pairwise (fun a b => a < b) := by
  decide

/-- A tier is not above `maxCategory` exactly when it indexes the unlock table and its
threshold is not above the level. -/
theorem le_maxCategory_iff (L : Int) (c : Nat) :
    (c : Int) ≤ maxCategory L ↔ ∃ lvl, obstacleUnlockLevels[c]? = some lvl ∧ lvl ≤ L := by
  rw [← filter_le_length_of_sorted obstacleUnlockLevels obstacleUnlockLevels_sorted L c]
  unfold maxCategory
  omega

/-- A higher level does not lower `maxCategory`. -/
theorem maxCategory_mono (L1 L2 : Int) (h : L1 ≤ L2) : maxCategory L1 ≤ maxCategory L2 := by
  unfold maxCategory
  have : (obstacleUnlockLevels.filter (fun level => decide (level ≤ L1))).length ≤
      (obstacleUnlockLevels.filter (fun level => decide (level ≤ L2))).length := by
    apply List.Sublist.length_le
    apply List.monotone_filter_right
    intro level hl
    simp only [decide_eq_true_eq] at hl ⊢
    omega
  omega

/-- C13: with the built-in unlock table, an action of tier `c` is included by
`getOptimalCourse` at level `L1` exactly when `c` indexes the table and `table[c] ≤ L1` (and the
included tiers are the tiers of such actions); for `L1 < L2` every tier, and every action,
included at `L1` is included at `L2`. -/
theorem tier_inclusion (game : Game) (L1 L2 : Int) (h : L1 < L2) :
    (∀ obst, obst ∈ includedObst game L1 ↔
      obst ∈ game.actions ∧
        ∃ lvl, obstacleUnlockLevels[obst.category]? = some lvl ∧ lvl ≤ L1) ∧
    (∀ t, t ∈ includedCat game L1 ↔
      (∃ obst ∈ game.actions, obst.category = t) ∧
        ∃ lvl, obstacleUnlockLevels[t]? = some lvl ∧ lvl ≤ L1) ∧
    (∀ t, t ∈ includedCat game L1 → t ∈ includedCat game L2) ∧
    (∀ obst, obst ∈ includedObst game L1 → obst ∈ includedObst game L2) := by
  have hobst : ∀ (L : Int) obst, obst ∈ includedObst game L ↔
      obst ∈ game.actions ∧
        ∃ lvl, obstacleUnlockLevels[obst.category]? = some lvl ∧ lvl ≤ L := by
    intro L obst
    simp only [includedObst, List.mem_filter, decide_eq_true_eq, le_maxCategory_iff]
  have hcat : ∀ (L : Int) t, t ∈ includedCat game L ↔
      (∃ obst ∈ game.actions, obst.category = t) ∧
        ∃ lvl, obstacleUnlockLevels[t]? = some lvl ∧ lvl ≤ L := by
    intro L t
    rw [mem_includedCat, ← le_maxCategory_iff]
    constructor
    · rintro ⟨obst, hm, hc, hle⟩
      exact ⟨⟨obst, hm, hc⟩, hle⟩
    · rintro ⟨⟨obst, hm, hc⟩, hle⟩
      exact ⟨obst, hm, hc, hle⟩
  refine ⟨hobst L1, hcat L1, ?_, ?_⟩
  · intro t ht
    obtain ⟨hex, lvl, hl, hle⟩ := (hcat L1 t).1 ht
    exact (hcat L2 t).2 ⟨hex, lvl, hl, by omega⟩
  · intro obst ho
    obtain ⟨hm, lvl, hl, hle⟩ := (hobst L1 obst).1 ho
    exact (hobst L2 obst).2 ⟨hm, lvl, hl, by omega⟩

/-- Instance of C13 for `exampleGame` at the levels 5 and 10. -/
theorem tier_inclusion_witness :
    (5 : Int) < 10 ∧
    (∀ obst, obst ∈ includedObst exampleGame 5 ↔
      obst ∈ exampleGame.actions ∧
        ∃ lvl, obstacleUnlockLevels[obst.category]? = some lvl ∧ lvl ≤ 5) ∧
    (∀ t, t ∈ includedCat exampleGame 5 ↔
      (∃ obst ∈ exampleGame.actions, obst.category = t) ∧
        ∃ lvl, obstacleUnlockLevels[t]? = some lvl ∧ lvl ≤ 5) ∧
    (∀ t, t ∈ includedCat exampleGame 5 → t ∈ includedCat exampleGame 10) ∧
    (∀ obst, obst ∈ includedObst exampleGame 5 → obst ∈ includedObst exampleGame 10) :=
  ⟨by decide, tier_inclusion exampleGame 5 10 (by decide)⟩

/-! ### Results of the optimizer: faults, absent results and shape -/

/-- The included tiers are listed without repetition. -/
theorem nodup_includedCat (game : Game) (skillLevel : Int) :
    (includedCat game skillLevel).Nodup := by
  unfold includedCat
  exact (jsSort_perm _ _).nodup_iff.2 (nodup_newSet _)

/-- Index `j` is inside `optimalObstChoice` exactly when some included tier is at least `j`. -/
theorem optimalObstChoice_length (game : Game) (skillLevel masteryLevel : Int) (j : Nat) :
    j < (optimalObstChoice game skillLevel masteryLevel).length ↔
      ∃ c ∈ includedCat game skillLevel, j ≤ c := by
  unfold optimalObstChoice optimalObstBase
  rw [List.length_mapIdx]
  exact foldl_set_length_lt _ _ j

/-- A tier that is not included, below an included one, is a hole of `optimalObstChoice`. -/
theorem optimalObstChoice_hole (game : Game) (skillLevel masteryLevel : Int) (j : Nat)
    (hlt : j < (optimalObstChoice game skillLevel masteryLevel).length)
    (hj : j ∉ includedCat game skillLevel) :
    (optimalObstChoice game skillLevel masteryLevel)[j]? = some none := by
  obtain ⟨c, hc, hle⟩ := (optimalObstChoice_length game skillLevel masteryLevel j).1 hlt
  have hne : j ≠ c := fun e => hj (e ▸ hc)
  have hany : (includedCat game skillLevel).any (fun c => decide (j < c)) = true :=
    List.any_eq_true.2 ⟨c, hc, by simp; omega⟩
  unfold optimalObstChoice
  rw [List.getElem?_mapIdx, optimalObstBase_slot]
  simp [hj, hany]

/-- When the included tiers are `0, …, n - 1`, `optimalObstChoice` is an array of `n` choice
sets without hole. -/
theorem optimalObstChoice_contiguous (game : Game) (skillLevel masteryLevel : Int) (n : Nat)
    (hcont : ∀ t, t ∈ includedCat game skillLevel ↔ t < n) :
    ∃ sets : List (List String), sets.length = n ∧
      optimalObstChoice game skillLevel masteryLevel = sets.map some := by
  refine ⟨(List.range n).map (fun t => newSet
      ((game.actions.filter (fun obst => decide (obst.category = t) &&
          (getGlobalModValues game.isNegative obst.modifiers 1).isSome)).map (fun obst => obst.id)
        ++ (((catObstXP game skillLevel masteryLevel t).head?).map (fun p => p.id)).toList)),
    by simp, ?_⟩
  apply List.ext_getElem?
  intro j
  by_cases hj : j < n
  · rw [optimalObstChoice_getElem? game skillLevel masteryLevel j ((hcont j).2 hj)]
    simp [hj]
  · have hlen : ¬ j < (optimalObstChoice game skillLevel masteryLevel).length := by
      rw [optimalObstChoice_length]
      rintro ⟨c, hc, hle⟩
      have := (hcont c).1 hc
      omega
    rw [List.getElem?_eq_none (Nat.le_of_not_lt hlen)]
    have hr : (List.range n)[j]? = none := List.getElem?_eq_none (by simp; omega)
    simp [hr]

/-- No tier is included exactly when every obstacle is above `maxCategory`. -/
theorem includedCat_eq_nil_iff (game : Game) (skillLevel : Int) :
    includedCat game skillLevel = [] ↔
      ∀ obst ∈ game.actions, maxCategory skillLevel < (obst.category : Int) := by
  rw [List.eq_nil_iff_forall_not_mem]
  constructor
  · intro h obst hm
    by_contra hcon
    exact h obst.category ((mem_includedCat _ _ _).2 ⟨obst, hm, rfl, by omega⟩)
  · intro h t ht
    obtain ⟨obst, hm, hc, hle⟩ := (mem_includedCat _ _ _).1 ht
    have := h obst hm
    omega

/-- Below level 0 no threshold is reached and `maxCategory` is `-1`. -/
theorem maxCategory_of_neg (L : Int) (h : L < 0) : maxCategory L = -1 := by
  have hnil : obstacleUnlockLevels.filter (fun level => decide (level ≤ L)) = [] := by
    rw [List.filter_eq_nil_iff]
    intro b hb
    have hb0 : (0 : Int) ≤ b := by
      revert b
      decide
    simp only [decide_eq_true_eq]
    omega
  simp [maxCategory, hnil]

/-- Without included tier `optimalObstChoice` is the empty array. -/
theorem optimalObstChoice_of_no_tier (game : Game) (skillLevel masteryLevel : Int)
    (h : includedCat game skillLevel = []) :
    optimalObstChoice game skillLevel masteryLevel = [] := by
  simp [optimalObstChoice, optimalObstBase, h]

/-- Without included tier `getOptimalCourse` throws: `getArrayCombinations([])` reads
`args[0].length`. -/
theorem getOptimalCourse_of_no_tier (game : Game) (skillLevel masteryLevel : Int)
    (h : includedCat game skillLevel = []) :
    getOptimalCourse game skillLevel masteryLevel = Except.error JsError.typeError := by
  unfold getOptimalCourse
  rw [optimalObstChoice_of_no_tier game skillLevel masteryLevel h]
  rfl

/-- Below level 0 `getOptimalCourse` throws, whatever the catalog. -/
theorem getOptimalCourse_of_neg (game : Game) (skillLevel masteryLevel : Int)
    (h : skillLevel < 0) :
    getOptimalCourse game skillLevel masteryLevel = Except.error JsError.typeError := by
  apply getOptimalCourse_of_no_tier
  rw [includedCat_eq_nil_iff, maxCategory_of_neg skillLevel h]
  intro obst _
  omega


/-- Once the layouts are enumerated, `getOptimalCourse` either returns `undefined`, no
candidate having a rate greater than 0, or returns the properties of a candidate whose rate is
greater than 0. -/
theorem getOptimalCourse_cases (game : Game) (skillLevel masteryLevel : Int)
    (cands : List (List String))
    (hc : getArrayCombinations (optimalObstChoice game skillLevel masteryLevel) = Except.ok cands) :
    (getOptimalCourse game skillLevel masteryLevel = Except.ok none ∧
      ∀ c ∈ cands, ∀ p, courseProps game masteryLevel c = Except.ok p →
        JsNum.gt (xpRate p) (JsNum.num 0) = false) ∨
    ∃ (ci : List String) (props : List ObstProps), ci ∈ cands ∧
      courseProps game masteryLevel ci = Except.ok props ∧
      getOptimalCourse game skillLevel masteryLevel = Except.ok (some props) ∧
      JsNum.gt (xpRate props) (JsNum.num 0) = true := by
  have hP : ∀ c ∈ cands, courseProps game masteryLevel c = Except.ok
      (match courseProps game masteryLevel c with
        | Except.ok p => p
        | Except.error _ => []) := by
    intro c hmem
    obtain ⟨p, hp⟩ := courseProps_ok game skillLevel masteryLevel cands hc c hmem
    rw [hp]
  have hfold := foldlM_evaluateCourse game masteryLevel _ cands
    { optimalCourse := none, maxXPRate := JsNum.num 0 } hP
  have hrun : ∀ best, cands.foldlM (evaluateCourse game masteryLevel)
      { optimalCourse := none, maxXPRate := JsNum.num 0 } = Except.ok best →
      getOptimalCourse game skillLevel masteryLevel = Except.ok best.optimalCourse := by
    intro best hb
    unfold getOptimalCourse
    rw [hc]
    simp only [bind, Except.bind]
    rw [hb]
    rfl
  rcases foldl_best (fun c => xpRate (match courseProps game masteryLevel c with
        | Except.ok p => p
        | Except.error _ => []))
      (fun c => match courseProps game masteryLevel c with
        | Except.ok p => p
        | Except.error _ => []) cands { optimalCourse := none, maxXPRate := JsNum.num 0 } with
    ⟨he, hall⟩ | ⟨i, ci, hci, he, hgi, _, _⟩
  · left
    rw [he] at hfold
    refine ⟨hrun _ hfold, ?_⟩
    intro c hmem p hp
    have := hall c hmem
    simp only [hp] at this
    exact this
  · right
    have hmi : ci ∈ cands := List.getElem?_mem hci
    obtain ⟨props, hprops⟩ := courseProps_ok game skillLevel masteryLevel cands hc ci hmi
    simp only [hprops] at he hgi
    rw [he] at hfold
    exact ⟨ci, props, hmi, hprops, hrun _ hfold, hgi⟩

/-- When `getOptimalCourse` returns, the enumeration of the layouts has returned. -/
theorem getOptimalCourse_ok_inv (game : Game) (skillLevel masteryLevel : Int)
    (result : Option (List ObstProps))
    (h : getOptimalCourse game skillLevel masteryLevel = Except.ok result) :
    ∃ cands, getArrayCombinations (optimalObstChoice game skillLevel masteryLevel)
      = Except.ok cands := by
  cases hc : getArrayCombinations (optimalObstChoice game skillLevel masteryLevel) with
  | ok cands => exact ⟨cands, rfl⟩
  | error e =>
    unfold getOptimalCourse at h
    rw [hc] at h
    cases h

/-- The properties of a course carry the ids of the course, in order. -/
theorem courseObstProps_ids (game : Game) (masteryLevel : Int) (mods : JsObj String ℚ)
    (course : List String) (props : List ObstProps)
    (h : courseObstProps game masteryLevel mods course = Except.ok props) :
    props.map (fun p => p.id) = course := by
  induction course generalizing props with
  | nil =>
    simp only [courseObstProps, pure, Except.pure, Except.ok.injEq] at h
    subst h
    rfl
  | cons id rest ih =>
    rw [courseObstProps] at h
    cases hg : getObjectByID game id with
    | none => rw [hg] at h; cases h
    | some obst =>
      rw [hg] at h
      cases hr : courseObstProps game masteryLevel mods rest with
      | error e => simp [hr, bind, Except.bind] at h
      | ok ps =>
        simp only [hr, bind, Except.bind, pure, Except.pure, Except.ok.injEq] at h
        subst h
        have hid : obst.id = id := by
          unfold getObjectByID at hg
          simpa using List.find?_some hg
        simp [getObstProps, hid, ih ps hr]


/-- Elements related position by position: the element at index `i` is related to slot `i`. -/
theorem forall₂_slot {α β : Type} (R : α → β → Prop) (l : List α) (args : List β)
    (h : List.Forall₂ R l args) (i : Nat) (x : α) (hx : l[i]? = some x) :
    ∃ e, args[i]? = some e ∧ R x e := by
  induction h generalizing i with
  | nil => simp at hx
  | cons hr _ ih =>
    cases i with
    | zero =>
      simp only [List.getElem?_cons_zero, Option.some.injEq] at hx
      subst hx
      exact ⟨_, by simp, hr⟩
    | succ i =>
      simp only [List.getElem?_cons_succ] at hx ⊢
      exact ih i hx

/-- When a layout is enumerated, the included tiers are the positions of the layout, and the
id at position `i` is the id of an obstacle of tier `i`. -/
theorem layout_contiguous (game : Game) (skillLevel masteryLevel : Int)
    (cands : List (List String))
    (hc : getArrayCombinations (optimalObstChoice game skillLevel masteryLevel) = Except.ok cands)
    (course : List String) (hmem : course ∈ cands) :
    (∀ t, t ∈ includedCat game skillLevel ↔ t < course.length) ∧
    ∀ (i : Nat) (id : String), course[i]? = some id →
      ∃ obst ∈ game.actions, obst.category = i ∧ obst.id = id := by
  have hfa := getArrayCombinations_layouts _ _ hc course hmem
  have hlen := hfa.length_eq
  constructor
  · intro t
    constructor
    · intro ht
      have hslot := optimalObstChoice_getElem? game skillLevel masteryLevel t ht
      rcases List.getElem?_eq_some_iff.1 hslot with ⟨hlt, _⟩
      omega
    · intro ht
      obtain ⟨x, hx⟩ : ∃ x, course[t]? = some x :=
        ⟨course[t], List.getElem?_eq_getElem ht⟩
      obtain ⟨e, he, choices, rfl, _⟩ := forall₂_slot _ _ _ hfa t x hx
      exact optimalObstChoice_slot_some game skillLevel masteryLevel t choices he
  · intro i id hid
    obtain ⟨e, he, choices, rfl, hin⟩ := forall₂_slot _ _ _ hfa i id hid
    exact optimalObstChoice_ids game skillLevel masteryLevel i choices he id hin

/-- A list without repetition whose elements are the numbers below `n` is a reordering of
`0, …, n - 1`. -/
theorem perm_range_of_mem_iff (l : List Nat) (hnd : l.Nodup) (n : Nat)
    (h : ∀ t, t ∈ l ↔ t < n) : l.Perm (List.range n) := by
  rw [List.perm_ext_iff_of_nodup hnd (List.nodup_range n)]
  intro t
  rw [h t, List.mem_range]

/-- C18: when `getOptimalCourse` returns a course, the length of the course is the number of
included tiers (the distinct tiers not above `maxCategory` that have an action), these tiers
are `0, …, length - 1`, and the action at position `i` has the id of an obstacle of tier `i`,
the `i`-th included tier. -/
theorem getOptimalCourse_shape (game : Game) (skillLevel masteryLevel : Int)
    (props : List ObstProps)
    (h : getOptimalCourse game skillLevel masteryLevel = Except.ok (some props)) :
    props.length = (includedCat game skillLevel).length ∧
    (includedCat game skillLevel).Perm (List.range props.length) ∧
    ∀ (i : Nat) (p : ObstProps), props[i]? = some p →
      ∃ obst ∈ game.actions, obst.id = p.id ∧ obst.category = i := by
  obtain ⟨cands, hc⟩ := getOptimalCourse_ok_inv game skillLevel masteryLevel _ h
  rcases getOptimalCourse_cases game skillLevel masteryLevel cands hc with
    ⟨hnone, _⟩ | ⟨ci, props', hmem, hprops, hres, _⟩
  · rw [hnone] at h
    cases h
  · rw [hres] at h
    simp only [Except.ok.injEq, Option.some.injEq] at h
    subst h
    have hids : props'.map (fun p => p.id) = ci := by
      unfold courseProps at hprops
      exact courseObstProps_ids _ _ _ _ _ hprops
    have hlen : props'.length = ci.length := by rw [← hids, List.length_map]
    obtain ⟨hcont, hpos⟩ := layout_contiguous game skillLevel masteryLevel cands hc ci hmem
    have hperm := perm_range_of_mem_iff _ (nodup_includedCat game skillLevel) ci.length hcont
    refine ⟨?_, ?_, ?_⟩
    · rw [hperm.length_eq, List.length_range, hlen]
    · rw [hlen]; exact hperm
    · intro i p hp
      have hci : ci[i]? = some p.id := by
        rw [← hids, List.getElem?_map, hp]
        rfl
      obtain ⟨obst, hm, hcat, hid⟩ := hpos i p.id hci
      exact ⟨obst, hm, hid, hcat⟩


/-- Instance of C18 for `exampleGame` at level 10 and mastery level 1. -/
theorem getOptimalCourse_shape_witness :
    getOptimalCourse exampleGame 10 1 =
      Except.ok (some [⟨"neutral0", 15, 5000⟩, ⟨"modGranter1", 12, 6000⟩]) ∧
    ([⟨"neutral0", 15, 5000⟩, ⟨"modGranter1", 12, 6000⟩] : List ObstProps).length =
      (includedCat exampleGame 10).length ∧
    (includedCat exampleGame 10).Perm (List.range
      ([⟨"neutral0", 15, 5000⟩, ⟨"modGranter1", 12, 6000⟩] : List ObstProps).length) ∧
    ∀ (i : Nat) (p : ObstProps),
      ([⟨"neutral0", 15, 5000⟩, ⟨"modGranter1", 12, 6000⟩] : List ObstProps)[i]? = some p →
      ∃ obst ∈ exampleGame.actions, obst.id = p.id ∧ obst.category = i :=
  ⟨by decide!, getOptimalCourse_shape exampleGame 10 1
    [⟨"neutral0", 15, 5000⟩, ⟨"modGranter1", 12, 6000⟩] (by decide!)⟩

/-- C14 (code at the failing inputs): at level `-1`, below the first unlock threshold, and at
level 5 for a catalog whose only obstacle is in tier 1, no tier is included and
`getOptimalCourse` throws a `TypeError` instead of returning `undefined`. -/
theorem no_tier_throws :
    includedCat exampleGame (-1) = [] ∧
    getOptimalCourse exampleGame (-1) 50 = Except.error JsError.typeError ∧
    includedCat upperTierGame 5 = [] ∧
    getOptimalCourse upperTierGame 5 50 = Except.error JsError.typeError := by
  decide!

/-- The same read of `.length` of `undefined` happens on a hole: at level 10 the only obstacle
of `upperTierGame` is in tier 1, tier 0 is unlocked and empty, and `getOptimalCourse` throws. -/
theorem hole_throws :
    optimalObstChoice upperTierGame 10 50 = [none, some ["lone1"]] ∧
    getOptimalCourse upperTierGame 10 50 = Except.error JsError.typeError := by
  decide!

/-- C15 (as the code behaves): when the unlocked tiers that have an action are `0, …, n - 1`
with `n > 0` and tier `n` is unlocked but has no action, `getOptimalCourse` signals nothing: it
enumerates layouts of length `n` over the tiers that have actions, returns without fault and,
as soon as some layout has a positive rate, returns a course of length `n`, shorter than the
number of unlocked tiers, whose action at position `i` is of tier `i`: tier `n` is omitted. -/
theorem getOptimalCourse_omits_empty_tier (game : Game) (skillLevel masteryLevel : Int)
    (n : Nat) (hn : 0 < n) (hcont : ∀ t, t ∈ includedCat game skillLevel ↔ t < n)
    (hunlocked : (n : Int) ≤ maxCategory skillLevel) :
    n ∉ includedCat game skillLevel ∧
    ∃ cands, getArrayCombinations (optimalObstChoice game skillLevel masteryLevel)
        = Except.ok cands ∧
      (∀ c ∈ cands, c.length = n) ∧
      (∃ result, getOptimalCourse game skillLevel masteryLevel = Except.ok result) ∧
      ((∃ c ∈ cands, ∃ p, courseProps game masteryLevel c = Except.ok p ∧
          JsNum.gt (xpRate p) (JsNum.num 0) = true) →
        ∃ props, getOptimalCourse game skillLevel masteryLevel = Except.ok (some props) ∧
          props.length = n ∧ (props.length : Int) < maxCategory skillLevel + 1 ∧
          ∀ (i : Nat) (p : ObstProps), props[i]? = some p →
            i < n ∧ ∃ obst ∈ game.actions, obst.id = p.id ∧ obst.category = i) := by
  refine ⟨fun h => by have := (hcont n).1 h; omega, ?_⟩
  obtain ⟨sets, hlen, hsets⟩ :=
    optimalObstChoice_contiguous game skillLevel masteryLevel n hcont
  obtain ⟨choices, rest, rfl⟩ : ∃ choices rest, sets = choices :: rest := by
    cases sets with
    | nil => simp at hlen; omega
    | cons c r => exact ⟨c, r, rfl⟩
  have hc : getArrayCombinations (optimalObstChoice game skillLevel masteryLevel)
      = Except.ok (cartesianProduct (choices :: rest)) := by
    rw [hsets]
    show helper ((choices :: rest).map some) [] [] = _
    rw [helper_map_some]
    simp
  have hclen : ∀ c ∈ cartesianProduct (choices :: rest), c.length = n := by
    intro c hmem
    rw [← hlen]
    exact ((cartesianProduct_mem _ _).1 hmem).length_eq
  refine ⟨_, hc, hclen, ?_, ?_⟩
  · rcases getOptimalCourse_cases game skillLevel masteryLevel _ hc with
      ⟨hnone, _⟩ | ⟨_, props, _, _, hres, _⟩
    · exact ⟨_, hnone⟩
    · exact ⟨_, hres⟩
  · rintro ⟨c, hmem, p, hp, hgt⟩
    rcases getOptimalCourse_cases game skillLevel masteryLevel _ hc with
      ⟨_, hall⟩ | ⟨ci, props, hmi, hprops, hres, _⟩
    · rw [hall c hmem p hp] at hgt
      cases hgt
    · have hids : props.map (fun p => p.id) = ci := by
        unfold courseProps at hprops
        exact courseObstProps_ids _ _ _ _ _ hprops
      have hpl : props.length = n := by
        rw [← hclen ci hmi, ← hids, List.length_map]
      refine ⟨props, hres, hpl, by omega, ?_⟩
      intro i q hq
      have hin : i < n := by
        rcases List.getElem?_eq_some_iff.1 hq with ⟨hlt, _⟩
        omega
      have hci : ci[i]? = some q.id := by
        rw [← hids, List.getElem?_map, hq]
        rfl
      obtain ⟨obst, hm, hcat, hid⟩ :=
        (layout_contiguous game skillLevel masteryLevel _ hc ci hmi).2 i q.id hci
      exact ⟨hin, obst, hm, hid, hcat⟩

/-- Instance of C15 for `exampleGame` at level 20: tiers 0 and 1 have actions, tier 2 is
unlocked and has none. -/
theorem getOptimalCourse_omits_empty_tier_witness :
    (∀ t, t ∈ includedCat exampleGame 20 ↔ t < 2) ∧
    ((2 : Nat) : Int) ≤ maxCategory 20 ∧
    2 ∉ includedCat exampleGame 20 ∧
    ∃ cands, getArrayCombinations (optimalObstChoice exampleGame 20 1) = Except.ok cands ∧
      (∀ c ∈ cands, c.length = 2) ∧
      (∃ result, getOptimalCourse exampleGame 20 1 = Except.ok result) ∧
      ((∃ c ∈ cands, ∃ p, courseProps exampleGame 1 c = Except.ok p ∧
          JsNum.gt (xpRate p) (JsNum.num 0) = true) →
        ∃ props, getOptimalCourse exampleGame 20 1 = Except.ok (some props) ∧
          props.length = 2 ∧ (props.length : Int) < maxCategory 20 + 1 ∧
          ∀ (i : Nat) (p : ObstProps), props[i]? = some p →
            i < 2 ∧ ∃ obst ∈ exampleGame.actions, obst.id = p.id ∧ obst.category = i) :=
  have hcont : ∀ t, t ∈ includedCat exampleGame 20 ↔ t < 2 := by
    have h : includedCat exampleGame 20 = [0, 1] := by decide
    intro t
    rw [h]
    simp only [List.mem_cons, List.mem_singleton, List.not_mem_nil, or_false]
    omega
  ⟨hcont, by decide, getOptimalCourse_omits_empty_tier exampleGame 20 1 2 (by decide) hcont
    (by decide)⟩

/-- C15 (as stated) fails: at level 20 tiers 0, 1 and 2 are unlocked, `exampleGame` has no
action in tier 2 and has one in tier 0, and `getOptimalCourse` returns a course over tiers 0
and 1, not `undefined`. -/
theorem empty_tier_counterexample :
    maxCategory 20 = 2 ∧
    (∀ obst ∈ exampleGame.actions, obst.category ≠ 2) ∧
    (∃ obst ∈ exampleGame.actions, obst.category = 0) ∧
    getOptimalCourse exampleGame 20 1 =
      Except.ok (some [⟨"neutral0", 15, 5000⟩, ⟨"modGranter1", 12, 6000⟩]) ∧
    getOptimalCourse exampleGame 20 1 ≠ Except.ok none := by
  decide!

/-- C16 (as the code behaves): when at least one candidate layout exists and the rate of
every candidate is 0, `getOptimalCourse` returns `undefined`; the test
`totalXP / totalInt > maxXPRate` starts from `maxXPRate = 0`. -/
theorem getOptimalCourse_zero_rate (game : Game) (skillLevel masteryLevel : Int)
    (cands : List (List String))
    (hc : getArrayCombinations (optimalObstChoice game skillLevel masteryLevel) = Except.ok cands)
    (hne : cands ≠ [])
    (hz : ∀ c ∈ cands, ∀ p, courseProps game masteryLevel c = Except.ok p →
      xpRate p = JsNum.num 0) :
    getOptimalCourse game skillLevel masteryLevel = Except.ok none := by
  have _ := hne
  rcases getOptimalCourse_cases game skillLevel masteryLevel cands hc with
    ⟨hnone, _⟩ | ⟨ci, props, hmi, hprops, _, hgt⟩
  · exact hnone
  · rw [hz ci hmi props hprops] at hgt
    simp [JsNum.gt, JsNum.lt] at hgt

/-- Instance of C16 for `zeroRewardGame` at level 0 and mastery level 1. -/
theorem getOptimalCourse_zero_rate_witness :
    getArrayCombinations (optimalObstChoice zeroRewardGame 0 1) = Except.ok [["idle0"]] ∧
    getOptimalCourse zeroRewardGame 0 1 = Except.ok none :=
  ⟨by decide!, getOptimalCourse_zero_rate zeroRewardGame 0 1 [["idle0"]] (by decide!)
    (by decide) (by
      intro c hmem p hp
      simp only [List.mem_singleton] at hmem
      subst hmem
      have h : courseProps zeroRewardGame 1 ["idle0"] = Except.ok [⟨"idle0", 0, 5000⟩] := by
        decide!
      rw [h] at hp
      cases hp
      decide!)⟩

/-- C16 (as stated) fails: `zeroRewardGame` has one candidate layout, of total time 5000 ms
and rate 0, and `getOptimalCourse` returns no course. -/
theorem zero_rate_counterexample :
    getArrayCombinations (optimalObstChoice zeroRewardGame 0 1) = Except.ok [["idle0"]] ∧
    courseProps zeroRewardGame 1 ["idle0"] = Except.ok [⟨"idle0", 0, 5000⟩] ∧
    xpRate [⟨"idle0", 0, 5000⟩] = JsNum.num 0 ∧
    ¬ ∃ props, getOptimalCourse zeroRewardGame 0 1 = Except.ok (some props) := by
  refine ⟨by decide!, by decide!, by decide!, ?_⟩
  rintro ⟨props, h⟩
  have h0 : getOptimalCourse zeroRewardGame 0 1 = Except.ok none := by decide!
  rw [h0] at h
  cases h

/-! ### The enumeration order -/

/-- The reference product commutes with a renaming of the elements. -/
theorem cartesianProduct_map {α β : Type} (f : α → β) (args : List (List α)) :
    cartesianProduct (args.map (List.map f)) = (cartesianProduct args).map (List.map f) := by
  induction args with
  | nil => simp [cartesianProduct]
  | cons c rest ih =>
    simp only [List.map_cons, cartesianProduct, ih, List.flatMap_map, List.map_flatMap,
      List.map_map]
    rfl

/-- The reference product of sets without repetition has no repetition. -/
theorem cartesianProduct_nodup {α : Type} (args : List (List α))
    (h : ∀ choices ∈ args, choices.Nodup) : (cartesianProduct args).Nodup := by
  induction args with
  | nil => simp [cartesianProduct]
  | cons c rest ih =>
    have hc : c.Nodup := h c (List.mem_cons_self _ _)
    have hrest := ih (fun choices hm => h choices (List.mem_cons_of_mem _ hm))
    rw [cartesianProduct, List.nodup_flatMap]
    constructor
    · intro x _
      exact List.Nodup.map (fun a b hab => by simpa using hab) hrest
    · refine List.Pairwise.imp_of_mem ?_ hc
      intro x y _ _ hxy
      show List.Disjoint _ _
      intro layout h1 h2
      obtain ⟨l1, _, rfl⟩ := List.mem_map.1 h1
      obtain ⟨l2, _, h3⟩ := List.mem_map.1 h2
      simp only [List.cons.injEq] at h3
      exact hxy h3.1.symm

/-- The elements of a list paired with their positions are all different. -/
theorem nodup_enum_list {α : Type} (l : List α) : l.enum.Nodup := by
  apply List.Nodup.of_map Prod.fst
  rw [List.enum_map_fst]
  exact List.nodup_range _

/-- The first layout of the reference product of non-empty sets is made of the first element
of every set. -/
theorem cartesianProduct_head {α : Type} (args : List (List α))
    (h : ∀ choices ∈ args, choices ≠ []) :
    (cartesianProduct args).head? = some (args.filterMap List.head?) := by
  induction args with
  | nil => simp [cartesianProduct]
  | cons c rest ih =>
    have hrest := ih (fun choices hm => h choices (List.mem_cons_of_mem _ hm))
    cases c with
    | nil => exact absurd rfl (h [] (List.mem_cons_self _ _))
    | cons x xs =>
      rw [cartesianProduct, List.flatMap_cons]
      cases hp : cartesianProduct rest with
      | nil => rw [hp] at hrest; simp at hrest
      | cons l ls =>
        rw [hp] at hrest
        simp only [List.head?_cons, Option.some.injEq] at hrest
        simp [hrest]

/-- C20: for a non-empty list `args` of choice sets, `getArrayCombinations(args)` returns — the
recursion of `helper` over the tiers is total — the reference product that lists, for each
element of `args[0]` in order, that element in front of each layout of the product of the
remaining sets.  The selections of one position per tier (pairs of a position and the element
at it, in tier order) are listed without repetition, every such selection occurs, the layouts
are the elements of these selections in the same order, and the first layout is made of the
first element of every choice set. -/
theorem getArrayCombinations_lexicographic {α : Type} (args : List (List α))
    (hargs : args ≠ []) :
    getArrayCombinations (args.map some) = Except.ok (cartesianProduct args) ∧
    (cartesianProduct (args.map List.enum)).Nodup ∧
    (∀ sel, sel ∈ cartesianProduct (args.map List.enum) ↔
      List.Forall₂ (fun p choices => choices[p.1]? = some p.2) sel args) ∧
    cartesianProduct args =
      (cartesianProduct (args.map List.enum)).map (List.map Prod.snd) ∧
    ((∀ choices ∈ args, choices ≠ []) →
      (cartesianProduct args).head? = some (args.filterMap List.head?)) := by
  refine ⟨?_, ?_, ?_, ?_, cartesianProduct_head args⟩
  · obtain ⟨choices, rest, rfl⟩ := List.exists_cons_of_ne_nil hargs
    show helper ((choices :: rest).map some) [] [] = _
    rw [helper_map_some]
    simp
  · apply cartesianProduct_nodup
    intro choices hm
    obtain ⟨c, _, rfl⟩ := List.mem_map.1 hm
    exact nodup_enum_list c
  · intro sel
    rw [cartesianProduct_mem, List.forall₂_map_right_iff]
    constructor
    · intro h
      exact h.imp (fun _ _ hp => List.mem_enum_iff_getElem?.1 hp)
    · intro h
      exact h.imp (fun _ _ hp => List.mem_enum_iff_getElem?.2 hp)
  · rw [← cartesianProduct_map]
    congr 1
    rw [List.map_map]
    conv_lhs => rw [← List.map_id args]
    apply List.map_congr_left
    intro c _
    simp [List.enum_map_snd]

/-- Instance of C20 on the choice sets `[[1, 2], [3, 4]]`. -/
theorem getArrayCombinations_lexicographic_witness :
    ([[1, 2], [3, 4]] : List (List Nat)) ≠ [] ∧
    getArrayCombinations (([[1, 2], [3, 4]] : List (List Nat)).map some)
      = Except.ok [[1, 3], [1, 4], [2, 3], [2, 4]] ∧
    cartesianProduct ([[1, 2], [3, 4]] : List (List Nat)) = [[1, 3], [1, 4], [2, 3], [2, 4]] :=
  ⟨by decide,
   (getArrayCombinations_lexicographic [[1, 2], [3, 4]] (by decide)).1.trans (by decide),
   by decide⟩

/-! ### Setting the mastery level -/

/-- For a finite number `m`, `Math.max(1, Math.min(99, m))` is `m` clamped to `[1, 99]`. -/
theorem clamp_number (m : ℚ) :
    mathMax (JsNum.num 1) (mathMin (JsNum.num 99) (JsNum.num m)) =
      JsNum.num (max 1 (min 99 m)) := by
  by_cases h99 : m < 99
  · have hmin : min 99 m = m := min_eq_right (le_of_lt h99)
    by_cases h1 : 1 < m
    · have hmax : max 1 m = m := max_eq_right (le_of_lt h1)
      simp [mathMax, mathMin, JsNum.lt, h99, h1, hmin, hmax]
    · have hmax : max 1 m = 1 := max_eq_left (not_lt.1 h1)
      simp [mathMax, mathMin, JsNum.lt, h99, h1, hmin, hmax]
  · have hmin : min 99 m = 99 := min_eq_left (not_lt.1 h99)
    simp [mathMax, mathMin, JsNum.lt, h99, hmin]

/-- Where the test of `setMastery` and its computation agree: when `parseInt` makes `NaN` of
the argument `setMastery` leaves the instance, hence `levelArray`, unchanged; when the argument
is a finite number `m`, afterwards
`levelArray` has the same length and the same skill levels in the same order and every pair has
the mastery level `max(1, min(99, m))`, which is `m` itself when `1 ≤ m ≤ 99`;
`obstacleUnlockLevels` and `globalMods` are unchanged for every argument. -/
theorem setMastery_postcondition (state : State) (masteryLevel : JsValue) :
    (masteryLevel.parseIntIsNaN = true → setMastery state masteryLevel = state) ∧
    (∀ m : ℚ, masteryLevel = JsValue.number m →
      (setMastery state masteryLevel).levelArray.length = state.levelArray.length ∧
      (setMastery state masteryLevel).levelArray.map Prod.fst = state.levelArray.map Prod.fst ∧
      (∀ pair ∈ (setMastery state masteryLevel).levelArray,
        pair.2 = JsNum.num (max 1 (min 99 m))) ∧
      (1 ≤ m → m ≤ 99 →
        ∀ pair ∈ (setMastery state masteryLevel).levelArray, pair.2 = JsNum.num m)) ∧
    (setMastery state masteryLevel).obstacleUnlockLevels = state.obstacleUnlockLevels ∧
    (setMastery state masteryLevel).globalMods = state.globalMods := by
  refine ⟨?_, ?_, ?_, ?_⟩
  · intro h
    simp [setMastery, h]
  · rintro m rfl
    have hset : (setMastery state (JsValue.number m)).levelArray =
        state.levelArray.map (fun i => (i.1, JsNum.num (max 1 (min 99 m)))) := by
      simp [setMastery, JsValue.parseIntIsNaN, JsValue.toNumber, clamp_number]
    refine ⟨by simp [hset], by simp [hset, Function.comp_def], ?_, ?_⟩
    · intro pair hp
      rw [hset] at hp
      obtain ⟨i, _, rfl⟩ := List.mem_map.1 hp
      rfl
    · intro h1 h99 pair hp
      rw [hset] at hp
      obtain ⟨i, _, rfl⟩ := List.mem_map.1 hp
      simp [min_eq_right h99, max_eq_right h1]
  · unfold setMastery
    split_ifs <;> rfl
  · unfold setMastery
    split_ifs <;> rfl

/-- Instance of `setMastery_postcondition` on the instance built by the constructor, for
`undefined` and for 75. -/
theorem setMastery_postcondition_witness :
    setMastery initialState (JsValue.other true JsNum.nan) = initialState ∧
    (setMastery initialState (JsValue.number 75)).levelArray.map Prod.fst =
      initialState.levelArray.map Prod.fst ∧
    (∀ pair ∈ (setMastery initialState (JsValue.number 75)).levelArray,
      pair.2 = JsNum.num 75) ∧
    (setMastery initialState (JsValue.number 75)).obstacleUnlockLevels = obstacleUnlockLevels ∧
    (setMastery initialState (JsValue.number 75)).globalMods = globalMods :=
  ⟨(setMastery_postcondition initialState (JsValue.other true JsNum.nan)).1 rfl,
   ((setMastery_postcondition initialState (JsValue.number 75)).2.1 75 rfl).2.1,
   ((setMastery_postcondition initialState (JsValue.number 75)).2.1 75 rfl).2.2.2
      (by norm_num) (by norm_num),
   (setMastery_postcondition initialState (JsValue.number 75)).2.2.1,
   (setMastery_postcondition initialState (JsValue.number 75)).2.2.2⟩

/-- C19 (code at the failing input): for the string `"12abc"`, which is not numeric,
`parseInt` makes `12` of it, the test of `setMastery` passes, and `Math.max(1, Math.min(99, "12abc"))` is `NaN`, so that on the
instance built by the constructor every mastery level 50 is replaced by `NaN` instead of
`levelArray` being left unchanged.  The same test, made on `parseInt` of the argument and not
on the argument, leaves `levelArray` unchanged for the number `Infinity`, whose clamped value
is 99. -/
theorem setMastery_prefixed_string :
    prefixedString.parseIntIsNaN = false ∧
    (setMastery initialState prefixedString).levelArray =
      initialState.levelArray.map (fun i => (i.1, JsNum.nan)) ∧
    (setMastery initialState prefixedString).levelArray ≠ initialState.levelArray ∧
    mathMax (JsNum.num 1) (mathMin (JsNum.num 99) infinity.toNumber) = JsNum.num 99 ∧
    setMastery initialState infinity = initialState := by
  refine ⟨by decide, by decide!, by decide!, by decide!, by decide!⟩

end OptimalAgility
